import Mathlib

/-!
# AIshA shell — verification of the execution-engine specification

Shallow embedding of the AIshA shell core (tokenizer, grammar validator,
alias/variable expansion, and-or/sequential execution, pipeline status
computation, glob matching, variable store, interactive line editor) in
Lean 4, with theorems settling the specification claims.

Source files embedded:
* `src/parser.c` (quote-handling tokenizer + recursive-descent validator)
* `src/execute.c` (`execute_pipeline`, `execute_and_or_list`,
  `execute_sequential_commands`, `execute_shell_command_with_operators`)
* `src/builtins/builtins_ai.c` (variable store: `set_variable`,
  `get_variable`, `expand_variable_reference`)
* alias store (`expand_aliases`)
* glob matcher (`match_pattern`)
* line editor (`shell_readline`, `enable_raw_mode`, `disable_raw_mode`)
-/

namespace AIshA

/-! ## Token data model

From `token_type_t` (parser header) and `token_t` with `type`, `value`,
`quoted` fields. Token payloads are modelled as `List Char`. -/

inductive TokType where
  | word
  | pipe
  | semicolon
  | ampersand
  | andTok
  | orTok
  | inputRedirect
  | outputRedirect
  | outputAppend
  | heredoc
  | herestring
  | lparen
  | rparen
  | newline
  | eofTok
deriving DecidableEq, Repr

structure Token where
  type : TokType
  value : List Char
  quoted : Bool
deriving DecidableEq, Repr

/-- `SHELL_SUCCESS` from shell.h -/
def SHELL_SUCCESS : Nat := 0

/-- `SHELL_FAILURE` from shell.h -/
def SHELL_FAILURE : Nat := 1

/-! ## Pipeline exit status (`execute_pipeline`, src/execute.c lines 123-134)

The parent waits on every stage in order with `WUNTRACED`; per stage it
inspects the wait status:
* `waitpid < 0`            → `exit_status = SHELL_FAILURE`
* exited with nonzero code → `exit_status = WEXITSTATUS(status)`
* killed by a signal       → `exit_status = 128 + WTERMSIG(status)`
* otherwise (exited 0, or stopped) → `exit_status` unchanged. -/

inductive WaitStatus where
  | exited (code : Nat)
  | signaled (sig : Nat)
  | stopped
  | waitError
deriving DecidableEq, Repr

/-- One iteration of the wait loop of `execute_pipeline`. -/
def pipelineWaitStep (acc : Nat) : WaitStatus → Nat
  | .waitError => SHELL_FAILURE
  | .exited n => if n ≠ 0 then n else acc
  | .signaled s => 128 + s
  | .stopped => acc

/-- The pipeline exit status: fold of the wait loop over the per-stage
wait statuses, starting from `SHELL_SUCCESS`. -/
def pipelineExitStatus (ws : List WaitStatus) : Nat :=
  ws.foldl pipelineWaitStep SHELL_SUCCESS

/-- A stage outcome that makes the wait loop overwrite `exit_status`. -/
def stageFailed : WaitStatus → Bool
  | .exited n => n ≠ 0
  | .signaled _ => true
  | .stopped => false
  | .waitError => true

/-- The status value a single failed stage contributes. -/
def stageStatusValue : WaitStatus → Nat
  | .exited n => n
  | .signaled s => 128 + s
  | .stopped => 0
  | .waitError => SHELL_FAILURE

/-- Status of the last failed stage (of either kind), zero if none:
the amended description of the pipeline exit status. -/
def lastFailureStatus (ws : List WaitStatus) : Nat :=
  match ws.reverse.find? stageFailed with
  | some w => stageStatusValue w
  | none => SHELL_SUCCESS

/-- The claim's wording: 128 + signal of the last signaled stage whenever
some stage was signaled, otherwise exit status of the last stage that
exited nonzero, otherwise zero. (Stated from the specification, for
comparison against `pipelineExitStatus`, which is the code.) -/
def claimedPipelineExitStatus (ws : List WaitStatus) : Nat :=
  match ws.reverse.find? (fun w => match w with | .signaled _ => true | _ => false) with
  | some (.signaled s) => 128 + s
  | _ =>
    match ws.reverse.find? (fun w => match w with | .exited n => n ≠ 0 | _ => false) with
    | some (.exited n) => n
    | _ => SHELL_SUCCESS

theorem pipelineExitStatus_fold_eq (ws : List WaitStatus) (acc : Nat) :
    ws.foldl pipelineWaitStep acc =
      match ws.reverse.find? stageFailed with
      | some w => stageStatusValue w
      | none => acc := by
  induction ws generalizing acc with
  | nil => simp
  | cons w ws ih =>
    simp only [List.foldl_cons, List.reverse_cons, List.find?_append, ih]
    cases hfind : ws.reverse.find? stageFailed with
    | some v => simp
    | none =>
      cases w with
      | exited n =>
        by_cases hn : n = 0 <;>
          simp [pipelineWaitStep, stageFailed, stageStatusValue, List.find?, hn]
      | signaled s => simp [pipelineWaitStep, stageFailed, stageStatusValue, List.find?]
      | stopped => simp [pipelineWaitStep, stageFailed, stageStatusValue, List.find?]
      | waitError => simp [pipelineWaitStep, stageFailed, stageStatusValue, List.find?]

/-- C1 counterexample: a stage killed by signal 9 followed by a stage that
exits with code 3. The wait loop ends with 3 (the last failing stage wins,
whatever its kind); the claim demands 128 + 9 = 137. -/
theorem C1_counterexample :
    pipelineExitStatus [.signaled 9, .exited 3] = 3 ∧
      claimedPipelineExitStatus [.signaled 9, .exited 3] = 137 ∧
      pipelineExitStatus [.signaled 9, .exited 3] ≠
        claimedPipelineExitStatus [.signaled 9, .exited 3] := by
  refine ⟨rfl, rfl, ?_⟩
  decide

/-- C1 (amended): for every executed pipeline, the exit status recorded by
the parent's wait loop is the status contributed by the last stage (in
stage order) that did not succeed — its exit code if it exited nonzero,
128 + signal if it was killed by a signal — and zero when every stage
succeeded. -/
theorem C1_pipeline_exit_status (ws : List WaitStatus) :
    pipelineExitStatus ws = lastFailureStatus ws := by
  unfold pipelineExitStatus lastFailureStatus SHELL_SUCCESS
  exact pipelineExitStatus_fold_eq ws 0

/-! ## Tokenizer (`tokenize_input`, quote-handling variant)

A single-pass scanner over the raw line. Constants from the parser header:
`MAX_TOKENS = 1024`, `MAX_TOKEN_LENGTH = 1024`. The loop runs while input
remains and `token_cnt < max_tokens - 1`; a final EOF token is appended
when room remains. The main loop is written with an explicit iteration
bound (each iteration of the C loop consumes at least one input byte, so
`input.length + 1` iterations always suffice). -/

def MAX_TOKENS : Nat := 1024

def MAX_TOKEN_LENGTH : Nat := 1024

/-- `isspace` of the C locale. -/
def isSpaceC (c : Char) : Bool :=
  c == ' ' || c == '\t' || c == '\n' || c == '\x0b' || c == '\x0c' || c == '\r'

/-- String literal to character list. -/
def str (s : String) : List Char := s.data

/-- Body of a quoted string: scan until the closing quote, end of input, or
the token-length limit; inside double quotes a backslash escape is decoded
(`\n \t \r \\ \" \$` and backslash-backquote; anything else keeps the
backslash). Returns the accumulated payload and the remaining input
(starting at the closing quote when one was found). -/
def scanQuoteBody (isDouble : Bool) (q : Char) : List Char → List Char → List Char × List Char
  | [], acc => (acc, [])
  | c :: rest, acc =>
    if c == q then (acc, c :: rest)
    else if MAX_TOKEN_LENGTH - 1 ≤ acc.length then (acc, c :: rest)
    else if c == '\\' && isDouble then
      match rest with
      | [] => scanQuoteBody isDouble q [] (acc ++ [c])
      | e :: rest2 =>
        let app :=
          if e == 'n' then ['\n']
          else if e == 't' then ['\t']
          else if e == 'r' then ['\r']
          else if e == '\\' then ['\\']
          else if e == '"' then ['"']
          else if e == '$' then ['$']
          else if e == Char.ofNat 96 then [Char.ofNat 96]
          else ['\\', e]
        scanQuoteBody isDouble q rest2 (acc ++ app)
    else scanQuoteBody isDouble q rest (acc ++ [c])

/-- Characters that terminate an unquoted word. -/
def isWordStop (c : Char) : Bool :=
  c == '|' || c == '&' || c == ';' || c == '<' || c == '>' ||
  c == '(' || c == ')' || c == '#'

/-- Scan of a regular (unquoted) word, with backslash escaping. -/
def scanWord : List Char → List Char → List Char × List Char
  | [], acc => (acc, [])
  | c :: rest, acc =>
    if isSpaceC c then (acc, c :: rest)
    else if MAX_TOKEN_LENGTH - 1 ≤ acc.length then (acc, c :: rest)
    else if isWordStop c then (acc, c :: rest)
    else if c == '\\' then
      match rest with
      | [] => scanWord [] (acc ++ [c])
      | e :: rest2 => scanWord rest2 (acc ++ [e])
    else scanWord rest (acc ++ [c])

/-- One token per iteration; `fuel` bounds the number of iterations (the C
loop advances `curr` by at least one byte per iteration). -/
def tokenizeLoop (maxTokens : Nat) : Nat → List Char → List Token → List Token
  | 0, _, toks => toks
  | fuel + 1, cs, toks =>
    if maxTokens - 1 ≤ toks.length then toks
    else
      match cs.dropWhile (fun c => isSpaceC c && !(c == '\n')) with
      | [] => toks
      | c :: rest =>
        if c == '\n' then
          tokenizeLoop maxTokens fuel rest (toks ++ [⟨.newline, ['\\', 'n'], false⟩])
        else if c == '#' then
          tokenizeLoop maxTokens fuel (rest.dropWhile (fun d => !(d == '\n'))) toks
        else if c == '|' then
          match rest with
          | d :: rest2 =>
            if d == '|' then
              tokenizeLoop maxTokens fuel rest2 (toks ++ [⟨.orTok, ['|', '|'], false⟩])
            else tokenizeLoop maxTokens fuel rest (toks ++ [⟨.pipe, ['|'], false⟩])
          | [] => tokenizeLoop maxTokens fuel [] (toks ++ [⟨.pipe, ['|'], false⟩])
        else if c == '&' then
          match rest with
          | d :: rest2 =>
            if d == '&' then
              tokenizeLoop maxTokens fuel rest2 (toks ++ [⟨.andTok, ['&', '&'], false⟩])
            else tokenizeLoop maxTokens fuel rest (toks ++ [⟨.ampersand, ['&'], false⟩])
          | [] => tokenizeLoop maxTokens fuel [] (toks ++ [⟨.ampersand, ['&'], false⟩])
        else if c == ';' then
          tokenizeLoop maxTokens fuel rest (toks ++ [⟨.semicolon, [';'], false⟩])
        else if c == '(' then
          tokenizeLoop maxTokens fuel rest (toks ++ [⟨.lparen, ['('], false⟩])
        else if c == ')' then
          tokenizeLoop maxTokens fuel rest (toks ++ [⟨.rparen, [')'], false⟩])
        else if c == '<' then
          match rest with
          | d :: rest2 =>
            if d == '<' then
              match rest2 with
              | e :: rest3 =>
                if e == '<' then
                  tokenizeLoop maxTokens fuel rest3
                    (toks ++ [⟨.herestring, ['<', '<', '<'], false⟩])
                else
                  tokenizeLoop maxTokens fuel rest2
                    (toks ++ [⟨.heredoc, ['<', '<'], false⟩])
              | [] =>
                tokenizeLoop maxTokens fuel [] (toks ++ [⟨.heredoc, ['<', '<'], false⟩])
            else
              tokenizeLoop maxTokens fuel rest
                (toks ++ [⟨.inputRedirect, ['<'], false⟩])
          | [] =>
            tokenizeLoop maxTokens fuel [] (toks ++ [⟨.inputRedirect, ['<'], false⟩])
        else if c == '>' then
          match rest with
          | d :: rest2 =>
            if d == '>' then
              tokenizeLoop maxTokens fuel rest2
                (toks ++ [⟨.outputAppend, ['>', '>'], false⟩])
            else
              tokenizeLoop maxTokens fuel rest
                (toks ++ [⟨.outputRedirect, ['>'], false⟩])
          | [] =>
            tokenizeLoop maxTokens fuel [] (toks ++ [⟨.outputRedirect, ['>'], false⟩])
        else if c == '"' || c == '\'' then
          let isD := c == '"'
          let (val, rem) := scanQuoteBody isD c rest []
          let rem2 :=
            match rem with
            | r :: rest3 => if r == c then rest3 else r :: rest3
            | [] => []
          tokenizeLoop maxTokens fuel rem2 (toks ++ [⟨.word, val, true⟩])
        else
          let (val, rem) := scanWord (c :: rest) []
          tokenizeLoop maxTokens fuel rem (toks ++ [⟨.word, val, false⟩])
/-- `tokenize_input`: run the scanner, then append the EOF token when the
token array still has room. -/
def tokenize_input (input : List Char) : List Token :=
  let toks := tokenizeLoop MAX_TOKENS (input.length + 1) input []
  if toks.length < MAX_TOKENS then toks ++ [⟨.eofTok, [], false⟩] else toks

/-- C4: the quote-handling tokenizer silently accepts an unterminated
quote. On input `echo "abc` (the closing double quote missing) it
produces the Word tokens `echo` and `abc` (the latter marked quoted) plus
EOF, with no error — so the token stream validates and the command runs,
while the claim (and the specification's stated intent) demand a
TokenizerError. -/
theorem C4_unterminated_quote_accepted :
    tokenize_input (str "echo \"abc") =
      [⟨.word, str "echo", false⟩, ⟨.word, str "abc", true⟩, ⟨.eofTok, [], false⟩] := by
  decide

/-! ## Grammar validator (recursive descent over the token stream)

Each `validate_*` function consumes tokens from the front of the list and
returns the remaining suffix on success, `none` on `PARSE_SYNTAX_ERROR`.
`is_at_end` treats EOF and NEWLINE tokens as end of stream. -/

/-- `is_at_end` -/
def isAtEndV : List Token → Bool
  | [] => true
  | t :: _ => t.type == .eofTok || t.type == .newline

/-- `is_operator_token` -/
def isOperatorToken (ty : TokType) : Bool :=
  ty == .pipe || ty == .semicolon || ty == .ampersand || ty == .andTok || ty == .orTok

/-- `is_redirect_token` -/
def isRedirectToken (ty : TokType) : Bool :=
  ty == .inputRedirect || ty == .outputRedirect || ty == .outputAppend ||
  ty == .heredoc || ty == .herestring

/-- `validate_name` -/
def validate_name : List Token → Option (List Token)
  | [] => none
  | t :: rest =>
    if isAtEndV (t :: rest) then none
    else if t.type == .word then some rest
    else none

/-- `validate_input` -/
def validate_input : List Token → Option (List Token)
  | [] => none
  | t :: rest =>
    if isAtEndV (t :: rest) then none
    else if t.type == .inputRedirect then validate_name rest
    else none

/-- `validate_output` -/
def validate_output : List Token → Option (List Token)
  | [] => none
  | t :: rest =>
    if isAtEndV (t :: rest) then none
    else if t.type == .outputRedirect || t.type == .outputAppend then validate_name rest
    else none

theorem validate_name_length {ts ts' : List Token} (h : validate_name ts = some ts') :
    ts'.length < ts.length := by
  cases ts with
  | nil => simp [validate_name] at h
  | cons t rest =>
    simp only [validate_name] at h
    split at h
    · simp at h
    · split at h
      · injection h with h2; subst h2; simp
      · simp at h

theorem validate_input_length {ts ts' : List Token} (h : validate_input ts = some ts') :
    ts'.length < ts.length := by
  cases ts with
  | nil => simp [validate_input] at h
  | cons t rest =>
    simp only [validate_input] at h
    split at h
    · simp at h
    · split at h
      · have := validate_name_length h
        simp only [List.length_cons]
        omega
      · simp at h

theorem validate_output_length {ts ts' : List Token} (h : validate_output ts = some ts') :
    ts'.length < ts.length := by
  cases ts with
  | nil => simp [validate_output] at h
  | cons t rest =>
    simp only [validate_output] at h
    split at h
    · simp at h
    · split at h
      · have := validate_name_length h
        simp only [List.length_cons]
        omega
      · simp at h

/-- The `while` loop of `validate_atomic`: words and redirections until an
operator, a parenthesis, or end of stream. -/
def atomicLoop : List Token → Option (List Token)
  | [] => some []
  | t :: rest =>
    if isAtEndV (t :: rest) then some (t :: rest)
    else if isOperatorToken t.type || t.type == .lparen || t.type == .rparen then
      some (t :: rest)
    else if t.type == .inputRedirect then
      match h : validate_input (t :: rest) with
      | some ts' => atomicLoop ts'
      | none => none
    else if t.type == .outputRedirect || t.type == .outputAppend then
      match h : validate_output (t :: rest) with
      | some ts' => atomicLoop ts'
      | none => none
    else if t.type == .word then
      match h : validate_name (t :: rest) with
      | some ts' => atomicLoop ts'
      | none => none
    else none
termination_by ts => ts.length
decreasing_by
  · exact validate_input_length h
  · exact validate_output_length h
  · exact validate_name_length h

theorem atomicLoop_length {ts ts' : List Token} (h : atomicLoop ts = some ts') :
    ts'.length ≤ ts.length := by
  induction ts using atomicLoop.induct generalizing ts' with
  | case1 =>
    rw [atomicLoop.eq_def] at h
    injection h with h2; subst h2; exact le_refl _
  | case2 t rest h1 =>
    rw [atomicLoop.eq_def] at h
    simp only [h1, if_true] at h
    injection h with h2; subst h2; exact le_refl _
  | case3 t rest h1 h2 =>
    rw [atomicLoop.eq_def] at h
    simp only [h1, h2, Bool.false_eq_true, if_false, if_true] at h
    injection h with h2; subst h2; exact le_refl _
  | case4 t rest h1 h2 h3 ts2 hv ih =>
    rw [atomicLoop.eq_def] at h
    simp only [h1, h2, h3, Bool.false_eq_true, if_false, if_true] at h
    split at h
    · next x heq =>
      rw [hv] at heq
      injection heq with heq2
      subst heq2
      have l1 := validate_input_length hv
      have l2 := ih h
      omega
    · next heq => rw [hv] at heq; simp at heq
  | case5 t rest h1 h2 h3 hv =>
    rw [atomicLoop.eq_def] at h
    simp only [h1, h2, h3, Bool.false_eq_true, if_false, if_true] at h
    split at h
    · next x heq => rw [hv] at heq; simp at heq
    · simp at h
  | case6 t rest h1 h2 h3 h4 ts2 hv ih =>
    rw [atomicLoop.eq_def] at h
    simp only [h1, h2, h3, h4, Bool.false_eq_true, if_false, if_true] at h
    split at h
    · next x heq =>
      rw [hv] at heq
      injection heq with heq2
      subst heq2
      have l1 := validate_output_length hv
      have l2 := ih h
      omega
    · next heq => rw [hv] at heq; simp at heq
  | case7 t rest h1 h2 h3 h4 hv =>
    rw [atomicLoop.eq_def] at h
    simp only [h1, h2, h3, h4, Bool.false_eq_true, if_false, if_true] at h
    split at h
    · next x heq => rw [hv] at heq; simp at heq
    · simp at h
  | case8 t rest h1 h2 h3 h4 h5 ts2 hv ih =>
    rw [atomicLoop.eq_def] at h
    simp only [h1, h2, h3, h4, h5, Bool.false_eq_true, if_false, if_true] at h
    split at h
    · next x heq =>
      rw [hv] at heq
      injection heq with heq2
      subst heq2
      have l1 := validate_name_length hv
      have l2 := ih h
      omega
    · next heq => rw [hv] at heq; simp at heq
  | case9 t rest h1 h2 h3 h4 h5 hv =>
    rw [atomicLoop.eq_def] at h
    simp only [h1, h2, h3, h4, h5, Bool.false_eq_true, if_false, if_true] at h
    split at h
    · next x heq => rw [hv] at heq; simp at heq
    · simp at h
  | case10 t rest h1 h2 h3 h4 h5 =>
    rw [atomicLoop.eq_def] at h
    simp [h1, h2, h3, h4, h5] at h

/-- `validate_atomic` -/
def validate_atomic (ts : List Token) : Option (List Token) :=
  if isAtEndV ts then none
  else
    match validate_name ts with
    | some ts' => atomicLoop ts'
    | none => none

theorem validate_atomic_length {ts ts' : List Token} (h : validate_atomic ts = some ts') :
    ts'.length < ts.length := by
  unfold validate_atomic at h
  split at h
  · simp at h
  · split at h
    · next h2 => exact lt_of_le_of_lt (atomicLoop_length h) (validate_name_length h2)
    · simp at h

/-- head-of-stream checks used by `validate_pipeline` -/
def headIsWord : List Token → Bool
  | u :: _ => u.type == .word
  | [] => false

def headIsPipe : List Token → Bool
  | t :: _ => t.type == .pipe
  | [] => false

/-- The `while (TOKEN_PIPE)` loop of `validate_pipeline`. -/
def pipelineLoop : List Token → Option (List Token)
  | [] => some []
  | t :: rest =>
    if isAtEndV (t :: rest) then some (t :: rest)
    else if t.type == .pipe then
      if isAtEndV rest then none
      else if headIsWord rest then
        match h : validate_atomic rest with
        | some ts' => pipelineLoop ts'
        | none => none
      else none
    else some (t :: rest)
termination_by ts => ts.length
decreasing_by
  exact Nat.lt_trans (validate_atomic_length h) (by simp)

theorem pipelineLoop_length {ts ts' : List Token} (h : pipelineLoop ts = some ts') :
    ts'.length ≤ ts.length := by
  induction ts using pipelineLoop.induct generalizing ts' with
  | case1 =>
    rw [pipelineLoop.eq_def] at h
    injection h with h2; subst h2; exact le_refl _
  | case2 t rest h1 =>
    rw [pipelineLoop.eq_def] at h
    simp only [h1, if_true] at h
    injection h with h2; subst h2; exact le_refl _
  | case3 t rest h1 h2 h3 =>
    rw [pipelineLoop.eq_def] at h
    simp [h1, h2, h3] at h
  | case4 t rest h1 h2 h3 h4 ts2 hv ih =>
    rw [pipelineLoop.eq_def] at h
    simp only [h1, h2, h3, h4, Bool.false_eq_true, if_false, if_true] at h
    split at h
    · next x heq =>
      rw [hv] at heq
      injection heq with heq2
      subst heq2
      have l1 := validate_atomic_length hv
      have l2 := ih h
      simp only [List.length_cons]
      omega
    · next heq => rw [hv] at heq; simp at heq
  | case5 t rest h1 h2 h3 h4 hv =>
    rw [pipelineLoop.eq_def] at h
    simp only [h1, h2, h3, h4, Bool.false_eq_true, if_false, if_true] at h
    split at h
    · next x heq => rw [hv] at heq; simp at heq
    · simp at h
  | case6 t rest h1 h2 h3 h4 =>
    rw [pipelineLoop.eq_def] at h
    simp [h1, h2, h3, h4] at h
  | case7 t rest h1 h2 =>
    rw [pipelineLoop.eq_def] at h
    simp only [h1, h2, Bool.false_eq_true, if_false] at h
    injection h with h2; subst h2; exact le_refl _

/-- `validate_pipeline` -/
def validate_pipeline (ts : List Token) : Option (List Token) :=
  if !isAtEndV ts && headIsPipe ts then none
  else
    match validate_atomic ts with
    | some ts' => pipelineLoop ts'
    | none => none

theorem validate_pipeline_length {ts ts' : List Token} (h : validate_pipeline ts = some ts') :
    ts'.length < ts.length := by
  unfold validate_pipeline at h
  split at h
  · simp at h
  · split at h
    · next h2 => exact lt_of_le_of_lt (pipelineLoop_length h) (validate_atomic_length h2)
    · simp at h

/-- The `&&`/`||` loop of `validate_and_or`. -/
def andOrLoop : List Token → Option (List Token)
  | [] => some []
  | t :: rest =>
    if isAtEndV (t :: rest) then some (t :: rest)
    else if t.type == .andTok || t.type == .orTok then
      if isAtEndV rest then none
      else
        match h : validate_pipeline rest with
        | some ts' => andOrLoop ts'
        | none => none
    else some (t :: rest)
termination_by ts => ts.length
decreasing_by
  exact Nat.lt_trans (validate_pipeline_length h) (by simp)

theorem andOrLoop_length {ts ts' : List Token} (h : andOrLoop ts = some ts') :
    ts'.length ≤ ts.length := by
  induction ts using andOrLoop.induct generalizing ts' with
  | case1 =>
    rw [andOrLoop.eq_def] at h
    injection h with h2; subst h2; exact le_refl _
  | case2 t rest h1 =>
    rw [andOrLoop.eq_def] at h
    simp only [h1, if_true] at h
    injection h with h2; subst h2; exact le_refl _
  | case3 t rest h1 h2 h3 =>
    rw [andOrLoop.eq_def] at h
    simp [h1, h2, h3] at h
  | case4 t rest h1 h2 h3 ts2 hv ih =>
    rw [andOrLoop.eq_def] at h
    simp only [h1, h2, h3, Bool.false_eq_true, if_false, if_true] at h
    split at h
    · next x heq =>
      rw [hv] at heq
      injection heq with heq2
      subst heq2
      have l1 := validate_pipeline_length hv
      have l2 := ih h
      simp only [List.length_cons]
      omega
    · next heq => rw [hv] at heq; simp at heq
  | case5 t rest h1 h2 h3 hv =>
    rw [andOrLoop.eq_def] at h
    simp only [h1, h2, h3, Bool.false_eq_true, if_false, if_true] at h
    split at h
    · next x heq => rw [hv] at heq; simp at heq
    · simp at h
  | case6 t rest h1 h2 =>
    rw [andOrLoop.eq_def] at h
    simp only [h1, h2, Bool.false_eq_true, if_false] at h
    injection h with h2; subst h2; exact le_refl _

/-- `validate_and_or` -/
def validate_and_or (ts : List Token) : Option (List Token) :=
  match validate_pipeline ts with
  | some ts' => andOrLoop ts'
  | none => none

theorem validate_and_or_length {ts ts' : List Token} (h : validate_and_or ts = some ts') :
    ts'.length < ts.length := by
  unfold validate_and_or at h
  split at h
  · next h2 => exact lt_of_le_of_lt (andOrLoop_length h) (validate_pipeline_length h2)
  · simp at h

/-- The separator loop of `validate_shell_cmd`. -/
def shellCmdLoop : List Token → Option Unit
  | [] => some ()
  | t :: rest =>
    if isAtEndV (t :: rest) then some ()
    else if t.type == .ampersand || t.type == .semicolon then
      if isAtEndV rest then some ()
      else
        match h : validate_and_or rest with
        | some ts' => shellCmdLoop ts'
        | none => none
    else none
termination_by ts => ts.length
decreasing_by
  exact Nat.lt_trans (validate_and_or_length h) (by simp)

/-- `validate_shell_cmd` -/
def validate_shell_cmd (ts : List Token) : Option Unit :=
  if isAtEndV ts then some ()
  else
    match validate_and_or ts with
    | some ts' => shellCmdLoop ts'
    | none => none

/-- `shell_validate_syntax`: tokenize, then validate. Returns the
`parse_result_t` codes: 0 `PARSE_SUCCESS`, 1 `PARSE_SYNTAX_ERROR`,
2 `PARSE_TOO_MANY_TOKENS`. -/
def shell_validate_syntax (input : List Char) : Nat :=
  let toks := tokenize_input input
  if MAX_TOKENS ≤ toks.length then 2
  else
    match validate_shell_cmd toks with
    | some _ => 0
    | none => 1


/-! ## Non-interactive read/eval step (`shell_read_input`, `main`)

`shell_read_input` reads a line; if `shell_validate_syntax` returns
`PARSE_SYNTAX_ERROR` it prints `Invalid Syntax!` to stderr and returns an
empty string. The main loop skips empty input (`continue`) before any
history/preprocess/tokenize/execute step. Nothing on that path touches
`g_last_exit_status`. -/

/-- Shell-global state relevant here: `g_last_exit_status` (`$?`). -/
structure ShellState where
  lastExitStatus : Nat
deriving DecidableEq, Repr

/-- `shell_read_input` on an already-read line (trailing newline removed):
returns the string handed to the main loop together with the stderr
output. A syntax error yields the empty string plus the message. -/
def shell_read_input (line : List Char) : List Char × List (List Char) :=
  if shell_validate_syntax line = 1 then ([], [str "Invalid Syntax!"])
  else (line, [])

/-- One iteration of the non-interactive main loop on a line that was
read successfully. `preprocess` models `preprocess_input` (alias and
variable expansion, which may change shell state) and `ex` models
`execute_shell_command_with_operators` (returning the result, the new
state, and the list of command segments actually executed). -/
def mainLoopStep
    (preprocess : List Char → ShellState → List Char × ShellState)
    (ex : List Token → ShellState → Nat × ShellState × List (List Token))
    (st : ShellState) (line : List Char) :
    ShellState × List (List Token) × List (List Char) :=
  let (inputStr, errs) := shell_read_input line
  if inputStr.length = 0 then (st, [], errs)
  else
    let (processed, st1) := preprocess inputStr st
    let toks := tokenize_input processed
    let (_, st2, executed) := ex toks st1
    (st2, executed, errs)

/-- C3 (amended): a line rejected by the grammar validator makes the shell
print `Invalid Syntax!` to the error stream and discard the line — no
command of it is executed, whatever the preprocessing and execution
oracles — and the shell state, in particular `$?`, is left unchanged
(the claim's "set to non-zero" does not happen). -/
theorem C3_syntax_error_discards
    (preprocess : List Char → ShellState → List Char × ShellState)
    (ex : List Token → ShellState → Nat × ShellState × List (List Token))
    (st : ShellState) (line : List Char)
    (h : shell_validate_syntax line = 1) :
    mainLoopStep preprocess ex st line = (st, [], [str "Invalid Syntax!"]) := by
  unfold mainLoopStep shell_read_input
  rw [if_pos h]
  simp

/-- Witness for `C3_syntax_error_discards`: the line `|` is rejected by
the validator (leading pipe), and the step leaves the state untouched. -/
theorem C3_syntax_error_discards_witness :
    shell_validate_syntax (str "|") = 1 ∧
      mainLoopStep (fun l st => (l, st)) (fun _ st => (0, st, [])) ⟨7⟩ (str "|") =
        (⟨7⟩, [], [str "Invalid Syntax!"]) :=
  ⟨by decide, C3_syntax_error_discards _ _ ⟨7⟩ (str "|") (by decide)⟩

/-- C3 counterexample: with `$? = 0` beforehand, processing the rejected
line `|` prints the message and discards the line, but leaves `$?` at 0 —
it is not set to a non-zero value as the claim states. -/
theorem C3_counterexample :
    shell_validate_syntax (str "|") = 1 ∧
      (mainLoopStep (fun l st => (l, st)) (fun _ st => (0, st, [])) ⟨0⟩
          (str "|")).1.lastExitStatus = 0 := by
  decide

/-! ## And-or lists and sequential commands (`execute.c`)

`execute_and_or_list` (lines 295-358) and `execute_sequential_commands`
(lines 361-398) sweep the token array with an index; the embedding walks
the token list one token per loop iteration. Executing one
pipeline/command segment (`execute_pipeline` / `execute_single_command`
after parsing) is abstracted by an oracle `ex : List Token → Nat` giving
its exit status; the run additionally records which segments were
executed, in order. -/

/-- Observable execution events of one line, in program order. -/
inductive ExecEvent where
  | fg (seg : List Token)
  | bg (seg : List Token)
deriving DecidableEq, Repr

/-- `has_pipes` -/
def hasPipes (ts : List Token) : Bool := ts.any fun t => t.type == .pipe

/-- `has_and_or` -/
def hasAndOr (ts : List Token) : Bool :=
  ts.any fun t => t.type == .andTok || t.type == .orTok

/-- `has_sequential_or_background` -/
def hasSeqOrBg (ts : List Token) : Bool :=
  ts.any fun t => t.type == .semicolon || t.type == .ampersand

/-- Mode of the `execute_and_or_list` sweep: scanning a segment, or inside
one of the two skip loops entered after a short-circuit decision. -/
inductive AOMode where
  | scanning (seg : List Token)
  | skipToOr
  | skipToAnd
deriving DecidableEq, Repr

/-- Execute a completed segment (no-op when the segment is empty, as for
`segment_length > 0` in the C code). -/
def execSegment (ex : List Token → Nat) (seg : List Token) (last : Nat)
    (tr : List ExecEvent) : Nat × List ExecEvent :=
  if seg.isEmpty then (last, tr) else (ex seg, tr ++ [.fg seg])

/-- The index sweep of `execute_and_or_list`: at `&&`/`||`/EOF boundaries
the pending segment is executed; a failed `&&` enters the skip loop that
stops after the next `||`/`;`/`&`, a succeeded `||` the symmetric one. -/
def execAndOrAux (ex : List Token → Nat) :
    List Token → AOMode → Nat → List ExecEvent → Nat × List ExecEvent
  | [], .scanning seg, last, tr => execSegment ex seg last tr
  | [], .skipToOr, last, tr => (last, tr)
  | [], .skipToAnd, last, tr => (last, tr)
  | t :: rest, .scanning seg, last, tr =>
    if t.type == .eofTok then execSegment ex seg last tr
    else if t.type == .andTok then
      if (execSegment ex seg last tr).1 ≠ 0 then
        execAndOrAux ex rest .skipToOr
          (execSegment ex seg last tr).1 (execSegment ex seg last tr).2
      else
        execAndOrAux ex rest (.scanning [])
          (execSegment ex seg last tr).1 (execSegment ex seg last tr).2
    else if t.type == .orTok then
      if (execSegment ex seg last tr).1 = 0 then
        execAndOrAux ex rest .skipToAnd
          (execSegment ex seg last tr).1 (execSegment ex seg last tr).2
      else
        execAndOrAux ex rest (.scanning [])
          (execSegment ex seg last tr).1 (execSegment ex seg last tr).2
    else execAndOrAux ex rest (.scanning (seg ++ [t])) last tr
  | t :: rest, .skipToOr, last, tr =>
    if t.type == .orTok || t.type == .semicolon || t.type == .ampersand then
      execAndOrAux ex rest (.scanning []) last tr
    else execAndOrAux ex rest .skipToOr last tr
  | t :: rest, .skipToAnd, last, tr =>
    if t.type == .andTok || t.type == .semicolon || t.type == .ampersand then
      execAndOrAux ex rest (.scanning []) last tr
    else execAndOrAux ex rest .skipToAnd last tr

/-- `execute_and_or_list` -/
def execute_and_or_list (ex : List Token → Nat) (ts : List Token) :
    Nat × List ExecEvent :=
  execAndOrAux ex ts (.scanning []) SHELL_SUCCESS []

/-- Foreground dispatch of one `;`-separated segment
(`execute_sequential_commands` body): an and-or list when `&&`/`||`
occurs in it, otherwise a pipeline or single command (the oracle). -/
def execSeqDispatch (ex : List Token → Nat) (seg : List Token)
    (tr : List ExecEvent) : Nat × List ExecEvent :=
  if hasAndOr seg then
    let p := execute_and_or_list ex seg
    (p.1, tr ++ p.2)
  else (ex seg, tr ++ [.fg seg])

/-- The index sweep of `execute_sequential_commands`: boundaries are `;`,
`&` and EOF; a segment closed by `&` becomes a background job (parent
result `SHELL_SUCCESS`), any other nonempty segment runs in the
foreground. -/
def execSeqAux (ex : List Token → Nat) :
    List Token → List Token → Nat → List ExecEvent → Nat × List ExecEvent
  | [], seg, last, tr =>
    if seg.isEmpty then (last, tr) else execSeqDispatch ex seg tr
  | t :: rest, seg, last, tr =>
    if t.type == .eofTok || t.type == .semicolon then
      if seg.isEmpty then execSeqAux ex rest [] last tr
      else
        let p := execSeqDispatch ex seg tr
        execSeqAux ex rest [] p.1 p.2
    else if t.type == .ampersand then
      if seg.isEmpty then execSeqAux ex rest [] last tr
      else execSeqAux ex rest [] SHELL_SUCCESS (tr ++ [.bg seg])
    else execSeqAux ex rest (seg ++ [t]) last tr

/-- `execute_sequential_commands` -/
def execute_sequential_commands (ex : List Token → Nat) (ts : List Token) :
    Nat × List ExecEvent :=
  execSeqAux ex ts [] SHELL_SUCCESS []

/-- `execute_shell_command_with_operators` -/
def execute_shell_command_with_operators (ex : List Token → Nat)
    (ts : List Token) : Nat × List ExecEvent :=
  if ts.isEmpty then (SHELL_FAILURE, [])
  else if hasSeqOrBg ts then execute_sequential_commands ex ts
  else if hasAndOr ts then execute_and_or_list ex ts
  else (ex ts, [.fg ts])

/-! ### Reference semantics for and-or lists

A structured and-or list: a first pipeline and a list of
(operator, pipeline) pairs. The reference evaluator runs left to right,
executing a pipeline after `&&` only when the current result is 0 and
after `||` only when it is non-zero. -/

inductive AndOrOp where
  | andOp
  | orOp
deriving DecidableEq, Repr

/-- The token an operator contributes to the token stream. -/
def opToken : AndOrOp → Token
  | .andOp => ⟨.andTok, ['&', '&'], false⟩
  | .orOp => ⟨.orTok, ['|', '|'], false⟩

/-- Flatten the (operator, pipeline) pairs into a token stream. -/
def flattenRest (rest : List (AndOrOp × List Token)) : List Token :=
  (rest.map fun p => opToken p.1 :: p.2).join

/-- Flatten a whole structured and-or list into a token stream. -/
def flattenChain (first : List Token) (rest : List (AndOrOp × List Token)) :
    List Token :=
  first ++ flattenRest rest

/-- Left-to-right short-circuit evaluation (reference semantics). -/
def andOrSpecGo (ex : List Token → Nat) :
    Nat → List ExecEvent → List (AndOrOp × List Token) → Nat × List ExecEvent
  | r, tr, [] => (r, tr)
  | r, tr, (op, s) :: rest =>
    if (op = .andOp ∧ r = 0) ∨ (op = .orOp ∧ r ≠ 0) then
      andOrSpecGo ex (ex s) (tr ++ [.fg s]) rest
    else andOrSpecGo ex r tr rest

/-- Reference semantics of a whole structured and-or list: the first
pipeline always runs. -/
def andOrSpec (ex : List Token → Nat) (first : List Token)
    (rest : List (AndOrOp × List Token)) : Nat × List ExecEvent :=
  andOrSpecGo ex (ex first) [.fg first] rest

/-- A pipeline segment as produced by the splitters: nonempty, and none of
its tokens is an and-or/sequential boundary token. -/
def plainTok (t : Token) : Bool :=
  !(t.type == .andTok || t.type == .orTok || t.type == .eofTok ||
    t.type == .semicolon || t.type == .ampersand)

def SegOk (s : List Token) : Prop :=
  s ≠ [] ∧ ∀ t ∈ s, plainTok t = true

instance (s : List Token) : Decidable (SegOk s) := by
  unfold SegOk; infer_instance

theorem plainTok_iff {t : Token} : plainTok t = true ↔
    t.type ≠ .andTok ∧ t.type ≠ .orTok ∧ t.type ≠ .eofTok ∧
      t.type ≠ .semicolon ∧ t.type ≠ .ampersand := by
  simp [plainTok, not_or, and_assoc]

/-- Executing a nonempty segment records the event and its status. -/
theorem execSegment_ne (ex : List Token → Nat) (seg : List Token) (last : Nat)
    (tr : List ExecEvent) (h : seg ≠ []) :
    execSegment ex seg last tr = (ex seg, tr ++ [.fg seg]) := by
  rw [execSegment, if_neg (by simpa using h)]

/-- One boundary step of the sweep at an `&&` token. -/
theorem execAndOrAux_cons_and (ex : List Token → Nat) (rest seg : List Token)
    (last : Nat) (tr : List ExecEvent) :
    execAndOrAux ex (opToken .andOp :: rest) (.scanning seg) last tr =
      if (execSegment ex seg last tr).1 ≠ 0 then
        execAndOrAux ex rest .skipToOr
          (execSegment ex seg last tr).1 (execSegment ex seg last tr).2
      else
        execAndOrAux ex rest (.scanning [])
          (execSegment ex seg last tr).1 (execSegment ex seg last tr).2 := rfl

/-- One boundary step of the sweep at a `||` token. -/
theorem execAndOrAux_cons_or (ex : List Token → Nat) (rest seg : List Token)
    (last : Nat) (tr : List ExecEvent) :
    execAndOrAux ex (opToken .orOp :: rest) (.scanning seg) last tr =
      if (execSegment ex seg last tr).1 = 0 then
        execAndOrAux ex rest .skipToAnd
          (execSegment ex seg last tr).1 (execSegment ex seg last tr).2
      else
        execAndOrAux ex rest (.scanning [])
          (execSegment ex seg last tr).1 (execSegment ex seg last tr).2 := rfl

/-- One step of the reference semantics at an `&&` with result 0. -/
theorem andOrSpecGo_cons_and_zero (ex : List Token → Nat) (s : List Token)
    (rest : List (AndOrOp × List Token)) (tr : List ExecEvent) :
    andOrSpecGo ex 0 tr ((AndOrOp.andOp, s) :: rest) =
      andOrSpecGo ex (ex s) (tr ++ [.fg s]) rest := rfl

/-- One step of the reference semantics at an `&&` with non-zero result. -/
theorem andOrSpecGo_cons_and_ne (ex : List Token → Nat) (s : List Token)
    (rest : List (AndOrOp × List Token)) (r : Nat) (tr : List ExecEvent)
    (h : r ≠ 0) :
    andOrSpecGo ex r tr ((AndOrOp.andOp, s) :: rest) = andOrSpecGo ex r tr rest := by
  have hcond : ¬((AndOrOp.andOp = AndOrOp.andOp ∧ r = 0) ∨
      (AndOrOp.andOp = AndOrOp.orOp ∧ r ≠ 0)) := by
    rintro (⟨-, h0⟩ | ⟨hoe, -⟩)
    · exact h h0
    · cases hoe
  show (if _ then _ else _) = _
  rw [if_neg hcond]

/-- One step of the reference semantics at a `||` with result 0. -/
theorem andOrSpecGo_cons_or_zero (ex : List Token → Nat) (s : List Token)
    (rest : List (AndOrOp × List Token)) (tr : List ExecEvent) :
    andOrSpecGo ex 0 tr ((AndOrOp.orOp, s) :: rest) = andOrSpecGo ex 0 tr rest := rfl

/-- One step of the reference semantics at a `||` with non-zero result. -/
theorem andOrSpecGo_cons_or_ne (ex : List Token → Nat) (s : List Token)
    (rest : List (AndOrOp × List Token)) (r : Nat) (tr : List ExecEvent)
    (h : r ≠ 0) :
    andOrSpecGo ex r tr ((AndOrOp.orOp, s) :: rest) =
      andOrSpecGo ex (ex s) (tr ++ [.fg s]) rest := by
  have hcond : (AndOrOp.orOp = AndOrOp.andOp ∧ r = 0) ∨
      (AndOrOp.orOp = AndOrOp.orOp ∧ r ≠ 0) := Or.inr ⟨rfl, h⟩
  show (if _ then _ else _) = _
  rw [if_pos hcond]

/-- Scanning a run of plain tokens just accumulates them into the pending
segment. -/
theorem execAndOrAux_scan_plain (ex : List Token → Nat) (s : List Token)
    (hs : ∀ t ∈ s, plainTok t = true) :
    ∀ rest seg last tr,
      execAndOrAux ex (s ++ rest) (.scanning seg) last tr =
        execAndOrAux ex rest (.scanning (seg ++ s)) last tr := by
  induction s with
  | nil => intro rest seg last tr; simp
  | cons t s ih =>
    intro rest seg last tr
    have hp := (plainTok_iff.mp (hs t (by simp)))
    obtain ⟨h1, h2, h3, _, _⟩ := hp
    have ihs : ∀ t ∈ s, plainTok t = true := fun u hu => hs u (by simp [hu])
    simp only [List.cons_append, execAndOrAux, beq_iff_eq, h1, h2, h3, if_false,
      ite_false]
    rw [show s.append rest = s ++ rest from rfl, ih ihs rest (seg ++ [t]) last tr]
    simp

/-- The skip loop after a failed `&&` walks over plain tokens. -/
theorem execAndOrAux_skipToOr_plain (ex : List Token → Nat) (s : List Token)
    (hs : ∀ t ∈ s, plainTok t = true) :
    ∀ rest last tr,
      execAndOrAux ex (s ++ rest) .skipToOr last tr =
        execAndOrAux ex rest .skipToOr last tr := by
  induction s with
  | nil => intro rest last tr; simp
  | cons t s ih =>
    intro rest last tr
    obtain ⟨_, h2, _, h4, h5⟩ := plainTok_iff.mp (hs t (by simp))
    have ihs : ∀ t ∈ s, plainTok t = true := fun u hu => hs u (by simp [hu])
    simp only [List.cons_append, execAndOrAux, beq_iff_eq]
    rw [if_neg (by simp [h2, h4, h5])]
    exact ih ihs rest last tr

/-- The skip loop after a succeeded `||` walks over plain tokens. -/
theorem execAndOrAux_skipToAnd_plain (ex : List Token → Nat) (s : List Token)
    (hs : ∀ t ∈ s, plainTok t = true) :
    ∀ rest last tr,
      execAndOrAux ex (s ++ rest) .skipToAnd last tr =
        execAndOrAux ex rest .skipToAnd last tr := by
  induction s with
  | nil => intro rest last tr; simp
  | cons t s ih =>
    intro rest last tr
    obtain ⟨h1, _, _, h4, h5⟩ := plainTok_iff.mp (hs t (by simp))
    have ihs : ∀ t ∈ s, plainTok t = true := fun u hu => hs u (by simp [hu])
    simp only [List.cons_append, execAndOrAux, beq_iff_eq]
    rw [if_neg (by simp [h1, h4, h5])]
    exact ih ihs rest last tr

theorem flattenRest_cons (op : AndOrOp) (s : List Token)
    (r : List (AndOrOp × List Token)) :
    flattenRest ((op, s) :: r) = opToken op :: (s ++ flattenRest r) := by
  simp [flattenRest]

/-- Structured counterpart of the `&&`-failure skip loop: the pipeline
after the first `||` operator, with everything before it dropped. -/
def splitToOr :
    List (AndOrOp × List Token) → Option (List Token × List (AndOrOp × List Token))
  | [] => none
  | (AndOrOp.orOp, s) :: r => some (s, r)
  | (AndOrOp.andOp, _) :: r => splitToOr r

/-- Structured counterpart of the `||`-success skip loop. -/
def splitToAnd :
    List (AndOrOp × List Token) → Option (List Token × List (AndOrOp × List Token))
  | [] => none
  | (AndOrOp.andOp, s) :: r => some (s, r)
  | (AndOrOp.orOp, _) :: r => splitToAnd r

theorem splitToOr_sub :
    ∀ {rest : List (AndOrOp × List Token)} {s' r'},
      splitToOr rest = some (s', r') →
        (AndOrOp.orOp, s') ∈ rest ∧ r'.length < rest.length ∧ ∀ p ∈ r', p ∈ rest := by
  intro rest
  induction rest with
  | nil => intro s' r' h; simp [splitToOr] at h
  | cons p r ih =>
    intro s' r' h
    match p with
    | (AndOrOp.orOp, s) =>
      simp only [splitToOr] at h
      injection h with h2
      injection h2 with ha hb
      subst ha; subst hb
      refine ⟨by simp, by simp, fun q hq => by simp [hq]⟩
    | (AndOrOp.andOp, s) =>
      simp only [splitToOr] at h
      obtain ⟨hmem, hlen, hsub⟩ := ih h
      exact ⟨by simp [hmem], by simp; omega, fun q hq => by simp [hsub q hq]⟩

theorem splitToAnd_sub :
    ∀ {rest : List (AndOrOp × List Token)} {s' r'},
      splitToAnd rest = some (s', r') →
        (AndOrOp.andOp, s') ∈ rest ∧ r'.length < rest.length ∧ ∀ p ∈ r', p ∈ rest := by
  intro rest
  induction rest with
  | nil => intro s' r' h; simp [splitToAnd] at h
  | cons p r ih =>
    intro s' r' h
    match p with
    | (AndOrOp.andOp, s) =>
      simp only [splitToAnd] at h
      injection h with h2
      injection h2 with ha hb
      subst ha; subst hb
      refine ⟨by simp, by simp, fun q hq => by simp [hq]⟩
    | (AndOrOp.orOp, s) =>
      simp only [splitToAnd] at h
      obtain ⟨hmem, hlen, hsub⟩ := ih h
      exact ⟨by simp [hmem], by simp; omega, fun q hq => by simp [hsub q hq]⟩

/-- Running the `&&`-failure skip loop over a flattened chain suffix stops
right after the first `||` operator. -/
theorem execAndOrAux_skip_flatten_or (ex : List Token → Nat) :
    ∀ (rest : List (AndOrOp × List Token)),
      (∀ p ∈ rest, ∀ t ∈ p.2, plainTok t = true) → ∀ last tr,
      execAndOrAux ex (flattenRest rest) .skipToOr last tr =
        match splitToOr rest with
        | none => (last, tr)
        | some (s', r') =>
          execAndOrAux ex (s' ++ flattenRest r') (.scanning []) last tr := by
  intro rest
  induction rest with
  | nil => intro _ last tr; simp [flattenRest, splitToOr, execAndOrAux]
  | cons p r ih =>
    intro hplain last tr
    match p with
    | (AndOrOp.orOp, s) =>
      rw [flattenRest_cons]
      show execAndOrAux ex (opToken AndOrOp.orOp :: (s ++ flattenRest r)) .skipToOr last tr = _
      rw [show execAndOrAux ex (opToken AndOrOp.orOp :: (s ++ flattenRest r)) .skipToOr last tr
            = execAndOrAux ex (s ++ flattenRest r) (.scanning []) last tr by
          simp [execAndOrAux, opToken]]
      simp [splitToOr]
    | (AndOrOp.andOp, s) =>
      have hs : ∀ t ∈ s, plainTok t = true :=
        fun t ht => hplain (AndOrOp.andOp, s) (by simp) t ht
      have hr : ∀ p ∈ r, ∀ t ∈ p.2, plainTok t = true :=
        fun q hq t ht => hplain q (by simp [hq]) t ht
      rw [flattenRest_cons]
      rw [show execAndOrAux ex (opToken AndOrOp.andOp :: (s ++ flattenRest r)) .skipToOr last tr
            = execAndOrAux ex (s ++ flattenRest r) .skipToOr last tr by
          simp [execAndOrAux, opToken]]
      rw [execAndOrAux_skipToOr_plain ex s hs]
      rw [ih hr last tr]
      simp [splitToOr]

/-- Running the `||`-success skip loop over a flattened chain suffix stops
right after the first `&&` operator. -/
theorem execAndOrAux_skip_flatten_and (ex : List Token → Nat) :
    ∀ (rest : List (AndOrOp × List Token)),
      (∀ p ∈ rest, ∀ t ∈ p.2, plainTok t = true) → ∀ last tr,
      execAndOrAux ex (flattenRest rest) .skipToAnd last tr =
        match splitToAnd rest with
        | none => (last, tr)
        | some (s', r') =>
          execAndOrAux ex (s' ++ flattenRest r') (.scanning []) last tr := by
  intro rest
  induction rest with
  | nil => intro _ last tr; simp [flattenRest, splitToAnd, execAndOrAux]
  | cons p r ih =>
    intro hplain last tr
    match p with
    | (AndOrOp.andOp, s) =>
      rw [flattenRest_cons]
      rw [show execAndOrAux ex (opToken AndOrOp.andOp :: (s ++ flattenRest r)) .skipToAnd last tr
            = execAndOrAux ex (s ++ flattenRest r) (.scanning []) last tr by
          simp [execAndOrAux, opToken]]
      simp [splitToAnd]
    | (AndOrOp.orOp, s) =>
      have hs : ∀ t ∈ s, plainTok t = true :=
        fun t ht => hplain (AndOrOp.orOp, s) (by simp) t ht
      have hr : ∀ p ∈ r, ∀ t ∈ p.2, plainTok t = true :=
        fun q hq t ht => hplain q (by simp [hq]) t ht
      rw [flattenRest_cons]
      rw [show execAndOrAux ex (opToken AndOrOp.orOp :: (s ++ flattenRest r)) .skipToAnd last tr
            = execAndOrAux ex (s ++ flattenRest r) .skipToAnd last tr by
          simp [execAndOrAux, opToken]]
      rw [execAndOrAux_skipToAnd_plain ex s hs]
      rw [ih hr last tr]
      simp [splitToAnd]

/-- Skipping in the reference semantics: with a non-zero result, pipelines
are skipped up to (and including) the next `&&`-attached ones, resuming at
the pipeline attached to the first `||`. -/
theorem andOrSpecGo_skip_or (ex : List Token → Nat) :
    ∀ (rest : List (AndOrOp × List Token)) (r : Nat), r ≠ 0 → ∀ tr,
      andOrSpecGo ex r tr rest =
        match splitToOr rest with
        | none => (r, tr)
        | some (s', r') => andOrSpecGo ex (ex s') (tr ++ [.fg s']) r' := by
  intro rest
  induction rest with
  | nil => intro r hr tr; simp [andOrSpecGo, splitToOr]
  | cons p rest ih =>
    intro r hr tr
    match p with
    | (AndOrOp.orOp, s) =>
      simp only [andOrSpecGo, splitToOr]
      rw [if_pos (by simp [hr])]
    | (AndOrOp.andOp, s) =>
      simp only [andOrSpecGo, splitToOr]
      rw [if_neg (by simp [hr])]
      exact ih r hr tr

/-- Skipping in the reference semantics, `||` side. -/
theorem andOrSpecGo_skip_and (ex : List Token → Nat) :
    ∀ (rest : List (AndOrOp × List Token)) (tr : List ExecEvent),
      andOrSpecGo ex 0 tr rest =
        match splitToAnd rest with
        | none => (0, tr)
        | some (s', r') => andOrSpecGo ex (ex s') (tr ++ [.fg s']) r' := by
  intro rest
  induction rest with
  | nil => intro tr; simp [andOrSpecGo, splitToAnd]
  | cons p rest ih =>
    intro tr
    match p with
    | (AndOrOp.andOp, s) =>
      simp only [andOrSpecGo, splitToAnd]
      rw [if_pos (by simp)]
    | (AndOrOp.orOp, s) =>
      simp only [andOrSpecGo, splitToAnd]
      rw [if_neg (by simp)]
      exact ih tr

/-- Main equivalence: on a well-formed flattened and-or chain the index
sweep of `execute_and_or_list` computes exactly the reference left-to-right
short-circuit semantics. -/
theorem execAndOrAux_flattenChain (ex : List Token → Nat) :
    ∀ (n : Nat) (rest : List (AndOrOp × List Token)), rest.length ≤ n →
      ∀ (first : List Token), SegOk first → (∀ p ∈ rest, SegOk p.2) →
      ∀ (tr : List ExecEvent) (last : Nat),
        execAndOrAux ex (flattenChain first rest) (.scanning []) last tr =
          andOrSpecGo ex (ex first) (tr ++ [.fg first]) rest := by
  intro n
  induction n with
  | zero =>
    intro rest hlen first hfirst _ tr last
    have : rest = [] := List.length_eq_zero.mp (Nat.le_zero.mp hlen)
    subst this
    rw [flattenChain, flattenRest]
    simp only [List.map_nil, List.join_nil, List.append_nil]
    have hscan := execAndOrAux_scan_plain ex first hfirst.2 [] [] last tr
    simp only [List.append_nil, List.nil_append] at hscan
    rw [hscan]
    simp only [execAndOrAux, andOrSpecGo, execSegment]
    rw [if_neg (by simpa using hfirst.1)]
  | succ n ih =>
    intro rest hlen first hfirst hrest tr last
    match rest with
    | [] =>
      rw [flattenChain, flattenRest]
      simp only [List.map_nil, List.join_nil, List.append_nil]
      have hscan := execAndOrAux_scan_plain ex first hfirst.2 [] [] last tr
      simp only [List.append_nil, List.nil_append] at hscan
      rw [hscan]
      simp only [execAndOrAux, andOrSpecGo, execSegment]
      rw [if_neg (by simpa using hfirst.1)]
    | (op, s2) :: rest2 =>
      have hs2 : SegOk s2 := hrest (op, s2) (by simp)
      have hrest2 : ∀ p ∈ rest2, SegOk p.2 := fun q hq => hrest q (by simp [hq])
      have hplain2 : ∀ p ∈ rest2, ∀ t ∈ p.2, plainTok t = true :=
        fun q hq t ht => (hrest2 q hq).2 t ht
      rw [flattenChain]
      rw [execAndOrAux_scan_plain ex first hfirst.2 _ [] last tr]
      simp only [List.nil_append]
      rw [show flattenRest ((op, s2) :: rest2) =
            opToken op :: (s2 ++ flattenRest rest2) by
          simp [flattenRest]]
      have hlen2 : rest2.length ≤ n := by
        simp only [List.length_cons] at hlen; omega
      match op with
      | AndOrOp.andOp =>
        rw [execAndOrAux_cons_and, execSegment_ne ex first last tr hfirst.1]
        show (if ex first ≠ 0 then
                execAndOrAux ex (s2 ++ flattenRest rest2) .skipToOr (ex first)
                  (tr ++ [.fg first])
              else
                execAndOrAux ex (s2 ++ flattenRest rest2) (.scanning []) (ex first)
                  (tr ++ [.fg first])) = _
        by_cases hz : ex first = 0
        · rw [if_neg (not_not_intro hz)]
          have heq := ih rest2 hlen2 s2 hs2 hrest2 (tr ++ [.fg first]) (ex first)
          rw [flattenChain] at heq
          rw [heq, hz, andOrSpecGo_cons_and_zero]
        · rw [if_pos hz]
          rw [execAndOrAux_skipToOr_plain ex s2 hs2.2]
          rw [execAndOrAux_skip_flatten_or ex rest2 hplain2]
          rw [andOrSpecGo_cons_and_ne ex s2 rest2 (ex first) (tr ++ [ExecEvent.fg first]) hz]
          rw [andOrSpecGo_skip_or ex rest2 (ex first) hz]
          cases hsplit : splitToOr rest2 with
          | none => simp
          | some pr =>
            obtain ⟨s', r'⟩ := pr
            obtain ⟨hmem, hlt, hsub⟩ := splitToOr_sub hsplit
            have hr' : ∀ p ∈ r', SegOk p.2 := fun q hq => hrest2 q (hsub q hq)
            have hs' : SegOk s' := hrest2 _ hmem
            have hlen' : r'.length ≤ n := by omega
            simp only
            have heq := ih r' hlen' s' hs' hr' (tr ++ [.fg first]) (ex first)
            rw [flattenChain] at heq
            rw [heq]
      | AndOrOp.orOp =>
        rw [execAndOrAux_cons_or, execSegment_ne ex first last tr hfirst.1]
        show (if ex first = 0 then
                execAndOrAux ex (s2 ++ flattenRest rest2) .skipToAnd (ex first)
                  (tr ++ [.fg first])
              else
                execAndOrAux ex (s2 ++ flattenRest rest2) (.scanning []) (ex first)
                  (tr ++ [.fg first])) = _
        by_cases hz : ex first = 0
        · rw [if_pos hz]
          rw [execAndOrAux_skipToAnd_plain ex s2 hs2.2]
          rw [execAndOrAux_skip_flatten_and ex rest2 hplain2]
          rw [hz, andOrSpecGo_cons_or_zero]
          rw [andOrSpecGo_skip_and ex rest2]
          cases hsplit : splitToAnd rest2 with
          | none => simp
          | some pr =>
            obtain ⟨s', r'⟩ := pr
            obtain ⟨hmem, hlt, hsub⟩ := splitToAnd_sub hsplit
            have hr' : ∀ p ∈ r', SegOk p.2 := fun q hq => hrest2 q (hsub q hq)
            have hs' : SegOk s' := hrest2 _ hmem
            have hlen' : r'.length ≤ n := by omega
            simp only
            have heq := ih r' hlen' s' hs' hr' (tr ++ [.fg first]) 0
            rw [flattenChain] at heq
            rw [heq]
        · rw [if_neg hz]
          have heq := ih rest2 hlen2 s2 hs2 hrest2 (tr ++ [.fg first]) (ex first)
          rw [flattenChain] at heq
          rw [heq]
          rw [andOrSpecGo_cons_or_ne ex s2 rest2 (ex first) (tr ++ [ExecEvent.fg first]) hz]

/-- The reference run's result is always the exit status of the pipeline
recorded by its last execution event. -/
theorem andOrSpecGo_last (ex : List Token → Nat) :
    ∀ (rest : List (AndOrOp × List Token)) (r : Nat) (tr : List ExecEvent)
      (s : List Token), r = ex s → tr.getLast? = some (.fg s) →
      ∃ s', (andOrSpecGo ex r tr rest).1 = ex s' ∧
        (andOrSpecGo ex r tr rest).2.getLast? = some (.fg s') := by
  intro rest
  induction rest with
  | nil => intro r tr s hr htr; exact ⟨s, hr, htr⟩
  | cons p rest ih =>
    intro r tr s hr htr
    obtain ⟨op, s2⟩ := p
    simp only [andOrSpecGo]
    split
    · exact ih (ex s2) (tr ++ [.fg s2]) s2 rfl (by simp)
    · exact ih r tr s hr htr

/-! ### The concrete seed scenario of the claim -/

/-- Oracle for the seed scenario: the pipeline `false` exits 1, every
`echo …` pipeline exits 0. -/
def exampleEx : List Token → Nat
  | t :: _ => if t.value = str "false" then 1 else 0
  | [] => 0

def exampleLine : List Char := str "false && echo a ; echo b || echo c"

/-- Standard output produced by one event under the seed oracle: `echo X`
prints `X` and a newline, `false` prints nothing. -/
def echoOut : ExecEvent → List Char
  | .fg (_ :: arg :: _) => arg.value ++ ['\n']
  | _ => []

/-- C2: (i) on every well-formed and-or list, `execute_and_or_list` runs
the pipelines left to right with short-circuiting, agreeing with the
reference semantics `andOrSpec`; (ii) the list's result is the exit status
of the last pipeline actually executed; (iii) on the seed input
`false && echo a ; echo b || echo c` exactly `false` and `echo b` run and
the output is exactly `b\n`. -/
theorem C2_andor_short_circuit (ex : List Token → Nat) (first : List Token)
    (rest : List (AndOrOp × List Token)) (h1 : SegOk first)
    (h2 : ∀ p ∈ rest, SegOk p.2) :
    execute_and_or_list ex (flattenChain first rest) = andOrSpec ex first rest ∧
    (∃ s', (andOrSpec ex first rest).1 = ex s' ∧
        (andOrSpec ex first rest).2.getLast? = some (.fg s')) ∧
    (execute_shell_command_with_operators exampleEx (tokenize_input exampleLine) =
        (0, [.fg [⟨.word, str "false", false⟩],
             .fg [⟨.word, str "echo", false⟩, ⟨.word, str "b", false⟩]]) ∧
      ((execute_shell_command_with_operators exampleEx
          (tokenize_input exampleLine)).2.map echoOut).join = str "b\n") := by
  refine ⟨?_, ?_, by decide, by decide⟩
  · rw [execute_and_or_list, andOrSpec]
    have := execAndOrAux_flattenChain ex rest.length rest (le_refl _) first h1 h2 []
      SHELL_SUCCESS
    simpa using this
  · exact andOrSpecGo_last ex rest (ex first) [.fg first] first rfl rfl

/-- Witness for `C2_andor_short_circuit`: the and-or list `false && echo a`
flattened, with the hypotheses discharged by computation. -/
theorem C2_andor_short_circuit_witness :
    SegOk [(⟨.word, str "false", false⟩ : Token)] ∧
      execute_and_or_list exampleEx
          (flattenChain [⟨.word, str "false", false⟩]
            [(.andOp, [⟨.word, str "echo", false⟩, ⟨.word, str "a", false⟩])]) =
        andOrSpec exampleEx [⟨.word, str "false", false⟩]
          [(.andOp, [⟨.word, str "echo", false⟩, ⟨.word, str "a", false⟩])] :=
  ⟨by decide,
    (C2_andor_short_circuit exampleEx
        [⟨.word, str "false", false⟩]
        [(.andOp, [⟨.word, str "echo", false⟩, ⟨.word, str "a", false⟩])]
        (by decide) (by decide)).1⟩

/-! ## Variable store (`builtins_ai.c`: `set_variable`, `get_variable`,
`expand_variable_reference`)

The hash table with linear probing is modelled as an association list (the
probing is an implementation detail of the same finite map); the process
environment as an association list mutated by `setenv`. -/

def MAX_VARIABLES : Nat := 1024

def MAX_VAR_NAME_LENGTH : Nat := 256

def VAR_FLAG_EXPORTED : Nat := 1

def VAR_FLAG_READONLY : Nat := 2

structure ShellVar where
  name : List Char
  value : List Char
  flags : Nat
deriving DecidableEq, Repr

/-- Shell-global variable state: the variable table, the process
environment, and the specials backing `$?`, `$$`, `$!`, `$#`, `$0`…`$9`. -/
structure VarEnv where
  vars : List ShellVar
  env : List (List Char × List Char)
  lastExit : Nat
  shellPid : Nat
  lastBgPid : Nat
  argCount : Nat
  positional : List (List Char)
deriving DecidableEq, Repr

/-- `find_variable` -/
def find_variable (st : VarEnv) (name : List Char) : Option ShellVar :=
  st.vars.find? fun v => v.name == name

/-- `getenv` -/
def lookupEnv (env : List (List Char × List Char)) (name : List Char) :
    Option (List Char) :=
  (env.find? fun p => p.1 == name).map fun p => p.2

/-- `setenv(name, value, 1)` -/
def setenvList (env : List (List Char × List Char)) (name value : List Char) :
    List (List Char × List Char) :=
  if env.any (fun p => p.1 == name) then
    env.map fun p => if p.1 == name then (p.1, value) else p
  else env ++ [(name, value)]

/-- `snprintf(buf, …, "%d", n)` for the non-negative values that occur. -/
def natToChars (n : Nat) : List Char := (Nat.repr n).data

/-- `get_variable` (specials first, then the table, then the environment).
`none` models a NULL return. -/
def get_variable (st : VarEnv) (name : List Char) : Option (List Char) :=
  if name = str "?" then some (natToChars st.lastExit)
  else if name = str "$" then some (natToChars st.shellPid)
  else if name = str "!" then some (natToChars st.lastBgPid)
  else if name = str "#" then some (natToChars st.argCount)
  else if name = str "0" then some (st.positional.headD (str "cshell"))
  else if (match name with | [c] => c.isDigit | _ => false) then
    match name with
    | [c] =>
      let idx := c.toNat - '0'.toNat
      if 0 < idx ∧ idx ≤ st.argCount ∧ idx < st.positional.length then
        some (st.positional.getD idx [])
      else some []
    | _ => some []
  else if name = str "@" ∨ name = str "*" then some []
  else
    match find_variable st name with
    | some v => some v.value
    | none => lookupEnv st.env name

/-- `set_variable`: refuse read-only names; update or create the entry
(merging flags on update); mirror into the environment iff the `flags`
argument carries `VAR_FLAG_EXPORTED`. Result `0` on success, `-1` on
failure (the C code also prints to stderr on failure). -/
def set_variable (st : VarEnv) (name value : List Char) (flags : Nat) :
    Int × VarEnv :=
  match find_variable st name with
  | some existing =>
    if existing.flags &&& VAR_FLAG_READONLY ≠ 0 then (-1, st)
    else
      let st' := { st with
        vars := st.vars.map fun v =>
          if v.name == name then { v with value := value, flags := v.flags ||| flags }
          else v }
      if flags &&& VAR_FLAG_EXPORTED ≠ 0 then
        (0, { st' with env := setenvList st'.env name value })
      else (0, st')
  | none =>
    if MAX_VARIABLES ≤ st.vars.length then (-1, st)
    else
      let st' := { st with vars := st.vars ++ [⟨name, value, flags⟩] }
      if flags &&& VAR_FLAG_EXPORTED ≠ 0 then
        (0, { st' with env := setenvList st'.env name value })
      else (0, st')

/-- C10: writing a read-only variable fails with a non-zero result and
leaves the whole store (table and environment) unchanged. -/
theorem C10_readonly_set_fails (st : VarEnv) (name value : List Char)
    (flags : Nat) (v : ShellVar) (hfind : find_variable st name = some v)
    (hro : v.flags &&& VAR_FLAG_READONLY ≠ 0) :
    set_variable st name value flags = (-1, st) := by
  rw [set_variable, hfind]
  simp only [hro, ne_eq, not_false_eq_true, if_pos]

/-- Witness for `C10_readonly_set_fails`: a store holding a read-only `R`
rejects the write and is returned unchanged. -/
theorem C10_readonly_set_fails_witness :
    find_variable ⟨[⟨str "R", str "old", VAR_FLAG_READONLY⟩], [], 0, 0, 0, 0, []⟩
        (str "R") = some ⟨str "R", str "old", VAR_FLAG_READONLY⟩ ∧
      set_variable ⟨[⟨str "R", str "old", VAR_FLAG_READONLY⟩], [], 0, 0, 0, 0, []⟩
        (str "R") (str "new") VAR_FLAG_EXPORTED =
        (-1, ⟨[⟨str "R", str "old", VAR_FLAG_READONLY⟩], [], 0, 0, 0, 0, []⟩) :=
  ⟨by decide,
    C10_readonly_set_fails _ (str "R") (str "new") VAR_FLAG_EXPORTED
      ⟨str "R", str "old", VAR_FLAG_READONLY⟩ (by decide) (by decide)⟩

/-- C5 counterexample: `X` is stored with the Exported flag and mirrored
value `1`; reassigning it through `set_variable` with `flags = 0` (as the
executor's `VAR=value` path and `${VAR:=…}` do) updates the store to `2`
but leaves the environment copy at `1`. -/
theorem C5_counterexample :
    set_variable ⟨[⟨[('X' : Char)], str "1", VAR_FLAG_EXPORTED⟩],
        [([('X' : Char)], str "1")], 0, 0, 0, 0, []⟩ [('X' : Char)] (str "2") 0 =
      (0, ⟨[⟨[('X' : Char)], str "2", VAR_FLAG_EXPORTED⟩],
        [([('X' : Char)], str "1")], 0, 0, 0, 0, []⟩) ∧
    lookupEnv [([('X' : Char)], str "1")] [('X' : Char)] = some (str "1") ∧
    str "1" ≠ str "2" := by
  refine ⟨by decide, by decide, by decide⟩

theorem lookupEnv_setenvList (env : List (List Char × List Char))
    (name value : List Char) :
    lookupEnv (setenvList env name value) name = some value := by
  rw [setenvList]
  split
  · next hany =>
    induction env with
    | nil => simp at hany
    | cons p env ih =>
      by_cases hp : (p.1 == name) = true
      · simp [lookupEnv, List.find?, hp]
      · simp only [List.any_cons, hp, Bool.false_or] at hany
        simp only [List.map_cons, hp, if_false, Bool.false_eq_true]
        simp only [lookupEnv, List.find?, hp, Bool.false_eq_true]
        exact ih hany
  · induction env with
    | nil => simp [lookupEnv, List.find?]
    | cons p env ih =>
      next hany =>
      simp only [List.any_cons, Bool.or_eq_true, not_or] at hany
      have hp : (p.1 == name) = false := by
        cases h : p.1 == name
        · rfl
        · exact absurd h hany.1
      simp only [List.cons_append]
      simp only [lookupEnv, List.find?, hp]
      exact ih (by simpa using hany.2)

/-- C5 (amended): the environment mirror happens exactly when the write
itself passes the Exported flag: `set_variable` with `VAR_FLAG_EXPORTED`
in its `flags` argument installs the new value in the environment, while
any write whose `flags` lack the bit leaves the environment untouched —
even when the stored variable itself is flagged Exported. -/
theorem C5_export_mirror (st : VarEnv) (name value : List Char) (flags : Nat) :
    (flags &&& VAR_FLAG_EXPORTED ≠ 0 → (set_variable st name value flags).1 = 0 →
      lookupEnv (set_variable st name value flags).2.env name = some value) ∧
    (flags &&& VAR_FLAG_EXPORTED = 0 →
      (set_variable st name value flags).2.env = st.env) := by
  constructor
  · intro hexp hok
    cases hfind : find_variable st name with
    | some existing =>
      by_cases hro : existing.flags &&& VAR_FLAG_READONLY ≠ 0
      · simp only [set_variable, hfind, if_pos hro] at hok
        exact absurd hok (by decide)
      · simp only [set_variable, hfind, if_neg hro, if_pos hexp]
        exact lookupEnv_setenvList _ name value
    | none =>
      by_cases hcap : MAX_VARIABLES ≤ st.vars.length
      · simp only [set_variable, hfind, if_pos hcap] at hok
        exact absurd hok (by decide)
      · simp only [set_variable, hfind, if_neg hcap, if_pos hexp]
        exact lookupEnv_setenvList _ name value
  · intro hexp
    have hexp' : ¬(flags &&& VAR_FLAG_EXPORTED ≠ 0) := not_not_intro hexp
    cases hfind : find_variable st name with
    | some existing =>
      by_cases hro : existing.flags &&& VAR_FLAG_READONLY ≠ 0
      · simp only [set_variable, hfind, if_pos hro]
      · simp only [set_variable, hfind, if_neg hro, if_neg hexp']
    | none =>
      by_cases hcap : MAX_VARIABLES ≤ st.vars.length
      · simp only [set_variable, hfind, if_pos hcap]
      · simp only [set_variable, hfind, if_neg hcap, if_neg hexp']

/-- Witness for `C5_export_mirror`: an exported write mirrors into the
environment; a plain write leaves it unchanged. -/
theorem C5_export_mirror_witness :
    ((VAR_FLAG_EXPORTED &&& VAR_FLAG_EXPORTED ≠ 0) ∧
      lookupEnv (set_variable ⟨[], [], 0, 0, 0, 0, []⟩ (str "Y") (str "v")
          VAR_FLAG_EXPORTED).2.env (str "Y") = some (str "v")) ∧
    (set_variable ⟨[], [(str "P", str "q")], 0, 0, 0, 0, []⟩ (str "Y") (str "v")
        0).2.env = [(str "P", str "q")] :=
  ⟨⟨by decide,
      (C5_export_mirror ⟨[], [], 0, 0, 0, 0, []⟩ (str "Y") (str "v")
          VAR_FLAG_EXPORTED).1 (by decide) (by decide)⟩,
    (C5_export_mirror ⟨[], [(str "P", str "q")], 0, 0, 0, 0, []⟩ (str "Y")
        (str "v") 0).2 (by decide)⟩

/-! ## Variable reference expansion (`expand_variable_reference`) -/

/-- `is_varname_char`: `isalnum` or underscore. -/
def isVarnameChar (c : Char) : Bool := c.isAlphanum || c == '_'

/-- First-character test for the `${#NAME}` length form. -/
def startsWithHash : List Char → Bool
  | c :: _ => c == '#'
  | [] => false

/-- `expand_variable_reference`: parse one `$…` reference at the start of
`ref`; returns the expansion text, the number of characters consumed and
the (possibly updated, for `:=`) state. `none` models the NULL return for
input that does not begin with `$`. -/
def expand_variable_reference (st : VarEnv) (ref : List Char) :
    Option (List Char × Nat × VarEnv) :=
  match ref with
  | [] => none
  | c0 :: start =>
    if !(c0 == '$') then none
    else
      match start with
      | [] => some (['$'], 1, st)
      | c :: srest =>
        if c == '{' then
          let inner := srest.takeWhile fun ch => !(ch == '}')
          let closing := srest.dropWhile fun ch => !(ch == '}')
          match closing with
          | [] => some (['$'], 1, st)
          | _ :: _ =>
            let getLength := startsWithHash inner
            let body := if getLength then inner.tail else inner
            let fullName := body.takeWhile isVarnameChar
            let varname := fullName.take (MAX_VAR_NAME_LENGTH - 1)
            let rem := body.drop fullName.length
            let consumed := 2 + inner.length + 1
            let value? := get_variable st varname
            if getLength then
              some (natToChars (match value? with | some v => v.length | none => 0),
                consumed, st)
            else
              match rem with
              | r1 :: r2 :: defl =>
                if r1 == ':' && r2 == '-' then
                  match value? with
                  | some (cv :: v) => some (cv :: v, consumed, st)
                  | _ => some (defl, consumed, st)
                else if r1 == ':' && r2 == '=' then
                  match value? with
                  | some (cv :: v) => some (cv :: v, consumed, st)
                  | _ => some (defl, consumed, (set_variable st varname defl 0).2)
                else
                  match value? with
                  | some (cv :: v) => some (cv :: v, consumed, st)
                  | _ => some ([], consumed, st)
              | _ =>
                match value? with
                | some (cv :: v) => some (cv :: v, consumed, st)
                | _ => some ([], consumed, st)
        else if c == '?' || c == '$' || c == '!' || c == '#' || c == '@' ||
            c == '*' || c == '0' then
          some ((get_variable st [c]).getD [], 2, st)
        else if c.isDigit then
          some ((get_variable st [c]).getD [], 2, st)
        else if isVarnameChar c then
          let fullName := (c :: srest).takeWhile isVarnameChar
          let varname := fullName.take (MAX_VAR_NAME_LENGTH - 1)
          some ((get_variable st varname).getD [], varname.length + 1, st)
        else some (['$'], 1, st)

theorem takeWhile_append_all {α : Type} {p : α → Bool} :
    ∀ {l₁ : List α}, (∀ a ∈ l₁, p a = true) →
      ∀ l₂, (l₁ ++ l₂).takeWhile p = l₁ ++ l₂.takeWhile p := by
  intro l₁
  induction l₁ with
  | nil => intro _ l₂; simp
  | cons a l ih =>
    intro h l₂
    rw [List.cons_append, List.takeWhile_cons, if_pos (h a (by simp)),
      ih (fun b hb => h b (by simp [hb])) l₂]
    rfl

theorem dropWhile_append_all {α : Type} {p : α → Bool} :
    ∀ {l₁ : List α}, (∀ a ∈ l₁, p a = true) →
      ∀ l₂, (l₁ ++ l₂).dropWhile p = l₂.dropWhile p := by
  intro l₁
  induction l₁ with
  | nil => intro _ l₂; simp
  | cons a l ih =>
    intro h l₂
    rw [List.cons_append, List.dropWhile_cons, if_pos (h a (by simp))]
    exact ih (fun b hb => h b (by simp [hb])) l₂

/-- C7 counterexample: for a store in which `R` is read-only with empty
value, expanding `${R:=d}` yields `d` but does *not* assign `d` to `R`:
the store is returned unchanged (the internal `set_variable` fails on the
read-only check), contradicting the claim's unconditional "additionally
assigns default to NAME in the store". -/
theorem C7_counterexample :
    expand_variable_reference
        ⟨[⟨['R'], [], VAR_FLAG_READONLY⟩], [], 0, 0, 0, 0, []⟩
        ['$', '{', 'R', ':', '=', 'd', '}'] =
      some (['d'], 7, ⟨[⟨['R'], [], VAR_FLAG_READONLY⟩], [], 0, 0, 0, 0, []⟩) ∧
      find_variable ⟨[⟨['R'], [], VAR_FLAG_READONLY⟩], [], 0, 0, 0, 0, []⟩ ['R'] =
        some ⟨['R'], [], VAR_FLAG_READONLY⟩ ∧
      ([] : List Char) ≠ ['d'] := by
  refine ⟨by decide, by decide, by decide⟩

/-- C7 (amended): expanding `${NAME:=default}` yields the variable's value
when `NAME` is set and non-empty (store untouched); otherwise it yields
`default` and updates the store exactly as `set_variable NAME default 0`
does — which assigns `default` to `NAME` when `NAME` is not read-only and
the table has room, and leaves the store unchanged otherwise. -/
theorem C7_assign_default_expansion (st : VarEnv) (name defl : List Char)
    (hne : name ≠ []) (hvc : ∀ c ∈ name, isVarnameChar c = true)
    (hlen : name.length ≤ MAX_VAR_NAME_LENGTH - 1)
    (hdefl : ∀ c ∈ defl, c ≠ '}') :
    (∀ c v, get_variable st name = some (c :: v) →
      expand_variable_reference st
          ('$' :: '{' :: (name ++ ':' :: '=' :: defl) ++ ['}']) =
        some (c :: v, name.length + defl.length + 5, st)) ∧
    ((get_variable st name = none ∨ get_variable st name = some []) →
      expand_variable_reference st
          ('$' :: '{' :: (name ++ ':' :: '=' :: defl) ++ ['}']) =
        some (defl, name.length + defl.length + 5, (set_variable st name defl 0).2)) ∧
    (find_variable st name = none → st.vars.length < MAX_VARIABLES →
      find_variable (set_variable st name defl 0).2 name = some ⟨name, defl, 0⟩) := by
  have hnb : ∀ c ∈ name ++ ':' :: '=' :: defl, (!(c == '}')) = true := by
    intro c hc
    rcases List.mem_append.mp hc with h | h
    · by_cases hcc : c = '}'
      · subst hcc
        exact absurd (hvc _ h) (by decide)
      · simp [hcc]
    · simp only [List.mem_cons] at h
      rcases h with rfl | rfl | h
      · decide
      · decide
      · have := hdefl c h
        simp [this]
  obtain ⟨c0, ns, rfl⟩ := List.exists_cons_of_ne_nil hne
  have hch : c0 ≠ '#' := by
    intro h
    subst h
    exact absurd (hvc '#' (by simp)) (by decide)
  have hinner :
      (((c0 :: ns) ++ ':' :: '=' :: defl) ++ ['}']).takeWhile (fun c => !(c == '}')) =
        (c0 :: ns) ++ ':' :: '=' :: defl := by
    rw [takeWhile_append_all hnb]
    simp
  have hclosing :
      (((c0 :: ns) ++ ':' :: '=' :: defl) ++ ['}']).dropWhile (fun c => !(c == '}')) =
        ['}'] := by
    rw [dropWhile_append_all hnb]
    simp
  have hfull : ((c0 :: ns) ++ ':' :: '=' :: defl).takeWhile isVarnameChar = c0 :: ns := by
    rw [takeWhile_append_all hvc, List.takeWhile_cons, if_neg (by decide)]
    simp
  have hvarname : ((c0 :: ns) : List Char).take (MAX_VAR_NAME_LENGTH - 1) = c0 :: ns :=
    List.take_of_length_le hlen
  have hrem : ((c0 :: ns) ++ ':' :: '=' :: defl).drop ((c0 :: ns) : List Char).length =
      ':' :: '=' :: defl := List.drop_left _ _
  have hmatchhash : startsWithHash ((c0 :: ns) ++ ':' :: '=' :: defl) = false := by
    rw [List.cons_append]
    simp [startsWithHash, hch]
  have hcons : 2 + (((c0 :: ns) ++ ':' :: '=' :: defl) : List Char).length + 1 =
      ((c0 :: ns) : List Char).length + defl.length + 5 := by
    simp only [List.length_append, List.length_cons]
    omega
  simp only [List.cons_append, List.append_assoc] at hinner hclosing hfull hrem hmatchhash hcons
  refine ⟨?_, ?_, ?_⟩
  · intro c v hval
    simp [expand_variable_reference, hinner, hclosing, hmatchhash, hfull, hvarname,
      hrem, hval]
    omega
  · intro hval
    rcases hval with hval | hval <;>
      simp [expand_variable_reference, hinner, hclosing, hmatchhash, hfull, hvarname,
        hrem, hval] <;>
      omega
  · intro hnone hcap
    have hnone' : List.find? (fun v => v.name == c0 :: ns) st.vars = none := hnone
    simp only [set_variable, hnone, if_neg (not_le.mpr hcap), if_neg (show
      ¬((0 : Nat) &&& VAR_FLAG_EXPORTED ≠ 0) by decide)]
    rw [find_variable]
    simp [List.find?_append, hnone', List.find?]

/-- Witness for `C7_assign_default_expansion`: expanding `${N:=d}` against
the empty store yields `d` and stores `N = d`. -/
theorem C7_assign_default_expansion_witness :
    (∀ c ∈ [('N' : Char)], isVarnameChar c = true) ∧
      expand_variable_reference ⟨[], [], 0, 0, 0, 0, []⟩
          ['$', '{', 'N', ':', '=', 'd', '}'] =
        some (['d'], 7, (set_variable ⟨[], [], 0, 0, 0, 0, []⟩ ['N'] ['d'] 0).2) :=
  ⟨by decide,
    (C7_assign_default_expansion ⟨[], [], 0, 0, 0, 0, []⟩ ['N'] ['d'] (by decide)
        (by decide) (by decide) (by decide)).2.1 (Or.inl (by decide))⟩

/-! ## Alias store (`expand_aliases`)

The alias hash table is modelled as an association list. `expand_aliases`
makes a *single* substitution of the first whitespace-delimited word — the
C function contains no repeat loop and no recursion guard. -/

/-- `get_alias` -/
def get_alias (aliases : List (List Char × List Char)) (name : List Char) :
    Option (List Char) :=
  (aliases.find? fun p => p.1 == name).map fun p => p.2

/-- `expand_aliases`: skip leading whitespace, take the first word, and if
it names an alias, replace that one word by the alias value. -/
def expand_aliases (aliases : List (List Char × List Char)) (input : List Char) :
    List Char :=
  let ws := input.takeWhile isSpaceC
  let cmdStart := input.dropWhile isSpaceC
  if cmdStart = [] then input
  else
    let cmd := cmdStart.takeWhile fun c => !isSpaceC c
    let cmdEnd := cmdStart.dropWhile fun c => !isSpaceC c
    match get_alias aliases cmd with
    | some v => ws ++ v ++ cmdEnd
    | none => input

/-- C6 counterexample: with aliases a → b and b → c, the alias pass maps a
line beginning with `a` to `b` — not to the claimed fixed point `c` — and
running the pass again on its own output changes it once more (to `c`),
so the output of one pass is not a fixed point. -/
theorem C6_counterexample :
    expand_aliases [(['a'], ['b']), (['b'], ['c'])] ['a'] = ['b'] ∧
      (['b'] : List Char) ≠ ['c'] ∧
      expand_aliases [(['a'], ['b']), (['b'], ['c'])]
          (expand_aliases [(['a'], ['b']), (['b'], ['c'])] ['a']) = ['c'] ∧
      expand_aliases [(['a'], ['b']), (['b'], ['c'])]
          (expand_aliases [(['a'], ['b']), (['b'], ['c'])] ['a']) ≠
        expand_aliases [(['a'], ['b']), (['b'], ['c'])] ['a'] := by
  refine ⟨by decide, by decide, by decide, by decide⟩

/-- C6 (amended): the alias pass performs exactly one substitution of the
first whitespace-delimited word: if the first word `w` of
`ws ++ w ++ rest` (leading whitespace `ws`, `rest` empty or starting with
whitespace) is an alias for `v`, the pass returns `ws ++ v ++ rest`; if it
is no alias, the line is returned unchanged. The pass is not iterated, so
with aliases a → b and b → c a line beginning with `a` becomes `b`. -/
theorem C6_alias_single_substitution (aliases : List (List Char × List Char))
    (ws w rest : List Char) (hws : ∀ c ∈ ws, isSpaceC c = true)
    (hw : w ≠ []) (hwns : ∀ c ∈ w, isSpaceC c = false)
    (hrest : rest = [] ∨ ∃ c rest', rest = c :: rest' ∧ isSpaceC c = true) :
    (∀ v, get_alias aliases w = some v →
      expand_aliases aliases (ws ++ w ++ rest) = ws ++ v ++ rest) ∧
    (get_alias aliases w = none →
      expand_aliases aliases (ws ++ w ++ rest) = ws ++ w ++ rest) := by
  obtain ⟨c0, w', rfl⟩ := List.exists_cons_of_ne_nil hw
  have htws : ((ws ++ (c0 :: w')) ++ rest).takeWhile isSpaceC = ws := by
    rw [List.append_assoc, takeWhile_append_all hws, List.cons_append,
      List.takeWhile_cons, if_neg (by simp [hwns c0 (by simp)])]
    simp
  have hdws : ((ws ++ (c0 :: w')) ++ rest).dropWhile isSpaceC = (c0 :: w') ++ rest := by
    rw [List.append_assoc, dropWhile_append_all hws, List.cons_append,
      List.dropWhile_cons, if_neg (by simp [hwns c0 (by simp)])]
  have hwnotspace : ∀ c ∈ c0 :: w', (!isSpaceC c) = true := by
    intro c hc
    simp [hwns c hc]
  have htw : ((c0 :: w') ++ rest).takeWhile (fun c => !isSpaceC c) = c0 :: w' := by
    rw [takeWhile_append_all hwnotspace]
    rcases hrest with rfl | ⟨c, rest', rfl, hc⟩
    · simp
    · rw [List.takeWhile_cons, if_neg (by simp [hc])]
      simp
  have hdw : ((c0 :: w') ++ rest).dropWhile (fun c => !isSpaceC c) = rest := by
    rw [dropWhile_append_all hwnotspace]
    rcases hrest with rfl | ⟨c, rest', rfl, hc⟩
    · simp
    · rw [List.dropWhile_cons, if_neg (by simp [hc])]
  constructor
  · intro v hv
    rw [expand_aliases]
    simp only [htws, hdws, htw, hdw, hv]
    simp [List.append_assoc]
  · intro hv
    rw [expand_aliases]
    simp only [htws, hdws, htw, hdw, hv]
    simp

/-- Witness for `C6_alias_single_substitution`: expanding `  ll -la` with
alias ll → ls -la substitutes only the first word. -/
theorem C6_alias_single_substitution_witness :
    get_alias [(str "ll", str "ls -la")] (str "ll") = some (str "ls -la") ∧
      expand_aliases [(str "ll", str "ls -la")] (str " " ++ str "ll" ++ str " x") =
        str " " ++ str "ls -la" ++ str " x" :=
  ⟨by decide,
    (C6_alias_single_substitution [(str "ll", str "ls -la")] (str " ") (str "ll")
          (str " x") (by decide) (by decide) (by decide)
          (Or.inr ⟨' ', ['x'], by decide, by decide⟩)).1
      (str "ls -la") (by decide)⟩

/-! ## Glob pattern matching (`match_pattern`, glob.c)

`*` matches by trying the rest of the pattern at every suffix of the
string — with no exclusion of `/`. `?` consumes one character, `[...]` is
a character class with ranges and `!`/`^` negation. -/

/-- The scan inside a `[...]` class: accumulates whether any literal or
range matched `sc`, stopping at `]`; returns the accumulated flag and the
remaining pattern (starting at the `]` when present). -/
def classScan (sc : Char) : List Char → Bool → Bool × List Char
  | [], matched => (matched, [])
  | c :: d :: e :: rest2, matched =>
    if c == ']' then (matched, c :: d :: e :: rest2)
    else if d == '-' && !(e == ']') then
      classScan sc rest2 (matched || (c ≤ sc && sc ≤ e))
    else classScan sc (d :: e :: rest2) (matched || (c == sc))
  | c :: rest, matched =>
    if c == ']' then (matched, c :: rest)
    else classScan sc rest (matched || (c == sc))

theorem classScan_length (sc : Char) (l : List Char) (m : Bool) :
    (classScan sc l m).2.length ≤ l.length := by
  induction l, m using classScan.induct sc with
  | case1 m => simp [classScan]
  | case2 c d e rest2 m h1 => simp [classScan, h1]
  | case3 c d e rest2 m h1 h2 ih =>
    rw [classScan, if_neg h1, if_pos h2]
    simp only [List.length_cons]
    omega
  | case4 c d e rest2 m h1 h2 ih =>
    rw [classScan, if_neg h1, if_neg h2]
    simp only [List.length_cons] at ih ⊢
    omega
  | case5 c rest m hne h1 =>
    match rest, hne with
    | [], _ => simp [classScan, h1]
    | [d], _ => simp [classScan, h1]
    | d :: e :: r2, hne => exact (hne d e r2 rfl).elim
  | case6 c rest m hne h1 ih =>
    match rest, hne with
    | [], _ =>
      simp only [classScan, h1] at ih ⊢
      simp at ih ⊢
    | [d], _ =>
      simp [classScan, h1]
      split <;> simp
    | d :: e :: r2, hne => exact (hne d e r2 rfl).elim

/-- Skip the closing `]` of a class if present. -/
def classRem (l : List Char) : List Char :=
  match l with
  | c2 :: r2 => if c2 == ']' then r2 else c2 :: r2
  | [] => []

theorem classRem_length (l : List Char) : (classRem l).length ≤ l.length := by
  match l with
  | [] => simp [classRem]
  | c2 :: r2 =>
    rw [classRem]
    split <;> simp

theorem dropWhile_length_le {α : Type} (p : α → Bool) :
    ∀ (l : List α), (l.dropWhile p).length ≤ l.length := by
  intro l
  induction l with
  | nil => simp
  | cons a l ih =>
    rw [List.dropWhile_cons]
    split
    · simp; omega
    · simp

/-- Negation marker of a class (`!` or `^` right after the `[`). -/
def classNegated (prest : List Char) : Bool :=
  match prest with
  | c2 :: _ => c2 == '!' || c2 == '^'
  | [] => false

mutual

/-- `match_pattern` (glob.c). The main loop runs while both pattern and
string are nonempty; afterwards trailing `*`s are skipped and both must be
exhausted. -/
def matchPattern : List Char → List Char → Bool
  | pc :: prest, sc :: srest =>
    if hstar : pc == '*' then
      match hdrop : (pc :: prest).dropWhile (fun c => c == '*') with
      | [] => true
      | q :: qrest => tryAll (q :: qrest) (sc :: srest)
    else if pc == '?' then matchPattern prest srest
    else if pc == '[' then
      let body := if classNegated prest then prest.tail else prest
      if (if classNegated prest then (classScan sc body false).1
          else !(classScan sc body false).1) then false
      else matchPattern (classRem (classScan sc body false).2) srest
    else if pc == sc then matchPattern prest srest
    else false
  | p, s => ((p.dropWhile fun c => c == '*').isEmpty && s.isEmpty)
termination_by p s => 2 * (p.length + s.length)
decreasing_by
  · have h1 : (pc :: prest).dropWhile (fun c => c == '*') =
        prest.dropWhile (fun c => c == '*') := by
      rw [List.dropWhile_cons, if_pos hstar]
    rw [h1] at hdrop
    have h2 : (q :: qrest).length ≤ prest.length := by
      rw [← hdrop]; exact dropWhile_length_le _ _
    simp only [List.length_cons] at h2 ⊢
    omega
  · simp only [List.length_cons]; omega
  · simp only [List.length_cons]
    split
    · have h3 := classRem_length (classScan sc prest.tail false).2
      have h4 := classScan_length sc prest.tail false
      have h5 : prest.tail.length ≤ prest.length := by cases prest <;> simp
      omega
    · have h3 := classRem_length (classScan sc prest false).2
      have h4 := classScan_length sc prest false
      omega
  · simp only [List.length_cons]; omega

/-- The `*` loop of `match_pattern`: try the rest of the pattern at the
current position and at every later suffix, ending with the empty
suffix. -/
def tryAll : List Char → List Char → Bool
  | p, [] => matchPattern p []
  | p, sc :: srest => matchPattern p (sc :: srest) || tryAll p srest
termination_by p s => 2 * (p.length + s.length) + 1
decreasing_by
  · omega
  · simp only [List.length_cons]; omega
  · simp only [List.length_cons]; omega

end

/-! Step lemmas for the well-founded `matchPattern`/`tryAll` pair: each one
restates one branch of the source loop, so that concrete runs and the
star-absorption argument can be carried out by rewriting. -/

theorem matchPattern_lit (pc sc : Char) (p s : List Char)
    (h1 : (pc == '*') = false) (h2 : (pc == '?') = false)
    (h3 : (pc == '[') = false) (h4 : (pc == sc) = true) :
    matchPattern (pc :: p) (sc :: s) = matchPattern p s := by
  rw [matchPattern.eq_def]
  simp [h1, h2, h3, h4]

theorem matchPattern_mismatch (pc sc : Char) (p s : List Char)
    (h1 : (pc == '*') = false) (h2 : (pc == '?') = false)
    (h3 : (pc == '[') = false) (h4 : (pc == sc) = false) :
    matchPattern (pc :: p) (sc :: s) = false := by
  rw [matchPattern.eq_def]
  simp [h1, h2, h3, h4]

theorem matchPattern_star (p : List Char) (sc : Char) (s : List Char)
    (q : Char) (qrest : List Char)
    (hdrop : ('*' :: p).dropWhile (fun c => c == '*') = q :: qrest) :
    matchPattern ('*' :: p) (sc :: s) = tryAll (q :: qrest) (sc :: s) := by
  rw [matchPattern.eq_def]
  simp only []
  rw [dif_pos (by decide)]
  split
  next heq => rw [hdrop] at heq; cases heq
  next q2 qrest2 heq =>
    rw [hdrop] at heq
    injection heq with hq hqr
    rw [hq, hqr]

theorem matchPattern_star_empty (p : List Char) (sc : Char) (s : List Char)
    (hdrop : ('*' :: p).dropWhile (fun c => c == '*') = []) :
    matchPattern ('*' :: p) (sc :: s) = true := by
  rw [matchPattern.eq_def]
  simp only []
  rw [dif_pos (by decide)]
  split
  next heq => rfl
  next q2 qrest2 heq => rw [hdrop] at heq; cases heq

theorem tryAll_cons (p : List Char) (sc : Char) (s : List Char) :
    tryAll p (sc :: s) = (matchPattern p (sc :: s) || tryAll p s) := by
  rw [tryAll.eq_def]

theorem tryAll_nil (p : List Char) : tryAll p [] = matchPattern p [] := by
  rw [tryAll.eq_def]

theorem matchPattern_nil_nil : matchPattern [] [] = true := by
  rw [matchPattern.eq_def]
  simp

theorem tryAll_of_suffix (p s2 : List Char) (hp : matchPattern p s2 = true) :
    ∀ s1 : List Char, tryAll p (s1 ++ s2) = true := by
  intro s1
  induction s1 with
  | nil =>
    match s2, hp with
    | [], hp => simpa [tryAll] using hp
    | sc :: srest, hp =>
      rw [List.nil_append, tryAll_cons]
      simp [hp]
  | cons c s1 ih =>
    rw [List.cons_append, tryAll_cons]
    simp [ih]

theorem star_crosses (p s1 s2 : List Char) (hp : matchPattern p s2 = true)
    (hhead : p.head? ≠ some '*') (hne : s1 ++ s2 ≠ []) :
    matchPattern ('*' :: p) (s1 ++ s2) = true := by
  have hdw : ('*' :: p).dropWhile (fun c => c == '*') = p := by
    rw [List.dropWhile_cons]
    simp only [if_pos (by decide : (('*' : Char) == '*') = true)]
    match p, hhead with
    | [], _ => simp
    | q :: qrest, hhead =>
      rw [List.dropWhile_cons, if_neg]
      simp only [List.head?] at hhead
      simp only [beq_iff_eq]
      intro hq
      exact hhead (by rw [hq])
  match h : s1 ++ s2, hne with
  | sc :: srest, _ =>
    match p, hp, hdw with
    | [], _, hdw => exact matchPattern_star_empty [] sc srest hdw
    | q :: qrest, hp, hdw =>
      rw [matchPattern_star (q :: qrest) sc srest q qrest hdw]
      rw [← h]
      exact tryAll_of_suffix (q :: qrest) s2 hp s1

/-- C8: counterexample. The claim says a match in which the characters
covered by `*` include a `/` is never accepted. In the source,
`match_pattern` implements `*` by trying the rest of the pattern at every
suffix of the string, with no exclusion of `/`: pattern `a*b` accepts path
`a/b`, where the characters covered by `*` are exactly the `/`. -/
theorem C8_counterexample :
    matchPattern (str "a*b") (str "a/b") = true ∧ '/' ∈ str "a/b" := by
  constructor
  · have e1 : str "a*b" = ['a', '*', 'b'] := rfl
    have e2 : str "a/b" = ['a', '/', 'b'] := rfl
    rw [e1, e2]
    rw [matchPattern_lit _ _ _ _ (by decide) (by decide) (by decide) (by decide)]
    rw [matchPattern_star _ _ _ 'b' [] (by decide)]
    rw [tryAll_cons]
    rw [matchPattern_mismatch _ _ _ _ (by decide) (by decide) (by decide) (by decide)]
    rw [tryAll_cons]
    rw [matchPattern_lit _ _ _ _ (by decide) (by decide) (by decide) (by decide)]
    rw [matchPattern_nil_nil]
    simp
  · decide

/-- C8 (amended): in `match_pattern`, `*` matches zero or more arbitrary
characters with no exclusion of `/`: if the pattern after the `*` matches a
suffix `s2` of the path, then `*` followed by that pattern matches `s1 ++ s2`
for every prefix `s1`, slashes included. -/
theorem C8_star_matches_any_span (p s1 s2 : List Char)
    (hp : matchPattern p s2 = true) (hhead : p.head? ≠ some '*')
    (hne : s1 ++ s2 ≠ []) :
    matchPattern ('*' :: p) (s1 ++ s2) = true :=
  star_crosses p s1 s2 hp hhead hne

theorem C8_star_matches_any_span_witness :
    matchPattern ['*'] (['/'] ++ []) = true :=
  C8_star_matches_any_span [] ['/'] [] matchPattern_nil_nil (by decide)
    (by decide)


/-! ## Raw terminal mode and `shell_readline` (part_009)

`enable_raw_mode` saves the current settings in `orig_termios`, installs a
raw variant, and sets `raw_mode_enabled`; `disable_raw_mode` restores the
saved settings. `shell_readline` enables raw mode once and every return
path — read error, Enter/Ctrl-J, Ctrl-D on an empty line, Ctrl-C — calls
`disable_raw_mode` first. The editing keys only touch the line state. -/

def LINE_BUFFER_SIZE : Nat := 4096

def KEY_CTRL_A : Nat := 1
def KEY_CTRL_B : Nat := 2
def KEY_CTRL_C : Nat := 3
def KEY_CTRL_D : Nat := 4
def KEY_CTRL_E : Nat := 5
def KEY_CTRL_F : Nat := 6
def KEY_CTRL_H : Nat := 8
def KEY_TAB : Nat := 9
def KEY_CTRL_J : Nat := 10
def KEY_CTRL_K : Nat := 11
def KEY_CTRL_L : Nat := 12
def KEY_ENTER : Nat := 13
def KEY_CTRL_N : Nat := 14
def KEY_CTRL_P : Nat := 16
def KEY_CTRL_R : Nat := 18
def KEY_CTRL_T : Nat := 20
def KEY_CTRL_U : Nat := 21
def KEY_CTRL_W : Nat := 23
def KEY_CTRL_Y : Nat := 25
def KEY_BACKSPACE : Nat := 127
def KEY_ARROW_UP : Nat := 1000
def KEY_ARROW_DOWN : Nat := 1001
def KEY_ARROW_RIGHT : Nat := 1002
def KEY_ARROW_LEFT : Nat := 1003
def KEY_HOME : Nat := 1004
def KEY_END : Nat := 1005
def KEY_DELETE : Nat := 1006

def BRKINT : Nat := 2
def ICRNL : Nat := 256
def INPCK : Nat := 16
def ISTRIP : Nat := 32
def IXON : Nat := 1024
def OPOST : Nat := 1
def CS8 : Nat := 48
def ECHO : Nat := 8
def ICANON : Nat := 2
def IEXTEN : Nat := 32768
def ISIG : Nat := 1

/-- The fields of `struct termios` the shell reads or writes. -/
structure Termios where
  c_iflag : Nat
  c_oflag : Nat
  c_cflag : Nat
  c_lflag : Nat
  c_cc_vmin : Nat
  c_cc_vtime : Nat
deriving DecidableEq, Repr

/-- Clear the bits of `mask` in `x` (`x &= ~mask`). -/
def clearBits (x mask : Nat) : Nat := x - (x &&& mask)

/-- The raw `struct termios` that `enable_raw_mode` builds from the saved
original settings. -/
def mkRawTermios (orig : Termios) : Termios :=
  { c_iflag := clearBits orig.c_iflag (BRKINT ||| ICRNL ||| INPCK ||| ISTRIP ||| IXON)
    c_oflag := clearBits orig.c_oflag OPOST
    c_cflag := orig.c_cflag ||| CS8
    c_lflag := clearBits orig.c_lflag (ECHO ||| ICANON ||| IEXTEN ||| ISIG)
    c_cc_vmin := 1
    c_cc_vtime := 0 }

/-- The terminal driver settings together with the module's static state
`orig_termios` and `raw_mode_enabled`. -/
structure TermState where
  settings : Termios
  origTermios : Termios
  rawModeEnabled : Bool
deriving DecidableEq, Repr

/-- `enable_raw_mode`: no-op when already enabled, not a tty, or
`tcgetattr` fails; on `tcsetattr` failure `orig_termios` has already been
overwritten; otherwise install the raw settings and set the flag. -/
def enable_raw_mode (isTty getOk setOk : Bool) (t : TermState) : TermState :=
  if t.rawModeEnabled then t
  else if !isTty then t
  else if !getOk then t
  else if !setOk then { t with origTermios := t.settings }
  else { settings := mkRawTermios t.settings, origTermios := t.settings,
         rawModeEnabled := true }

/-- `disable_raw_mode`: restore the saved settings when the flag is set. -/
def disable_raw_mode (t : TermState) : TermState :=
  if !t.rawModeEnabled then t
  else { t with settings := t.origTermios, rawModeEnabled := false }

/-- The static line-editor state of readline: `line_buffer` (and with it
`line_length`), `cursor_pos`, `history_index` and the kill buffer. -/
structure LineState where
  lineBuffer : List Char
  cursorPos : Nat
  historyIndex : Nat
  killBuffer : List Char
deriving DecidableEq, Repr

/-- `insert_char`: insert at the cursor unless the buffer is full. -/
def insert_char (c : Char) (ls : LineState) : LineState :=
  if ls.lineBuffer.length ≥ LINE_BUFFER_SIZE - 1 then ls
  else { ls with
    lineBuffer := ls.lineBuffer.take ls.cursorPos ++ [c] ++
      ls.lineBuffer.drop ls.cursorPos,
    cursorPos := ls.cursorPos + 1 }

/-- `delete_char`: delete the character at the cursor, if any. -/
def delete_char (ls : LineState) : LineState :=
  if ls.cursorPos < ls.lineBuffer.length then
    { ls with lineBuffer := ls.lineBuffer.take ls.cursorPos ++
        ls.lineBuffer.drop (ls.cursorPos + 1) }
  else ls

/-- `backspace_char`: move the cursor back one and delete there. -/
def backspace_char (ls : LineState) : LineState :=
  if 0 < ls.cursorPos then delete_char { ls with cursorPos := ls.cursorPos - 1 }
  else ls

/-- `set_line_from_history`: load `history[history_len - 1 - index]` into
the line buffer (truncated to the buffer size). -/
def set_line_from_history (history : List (List Char)) (index : Nat)
    (ls : LineState) : LineState :=
  if index < history.length then
    match history.get? (history.length - 1 - index) with
    | some hist =>
      let loaded := hist.take (LINE_BUFFER_SIZE - 1)
      { ls with lineBuffer := loaded, cursorPos := loaded.length }
    | none => ls
  else ls

/-- The cursor position after Ctrl-W: skip trailing spaces, then the word
before them. -/
def ctrlWPos (buf : List Char) (pos : Nat) : Nat :=
  (((buf.take pos).reverse.dropWhile (fun c => c == ' ')).dropWhile
    (fun c => !(c == ' '))).length

/-- The Tab branch of `shell_readline`, against a completion oracle that
returns the completion list and the common-prefix string of
`completion_result_t`. -/
def tabComplete (getCompletions : List Char → Nat → List (List Char) × List Char)
    (ls : LineState) : LineState :=
  let res := getCompletions ls.lineBuffer ls.cursorPos
  if 0 < res.1.length then
    let wordStart := ((ls.lineBuffer.take ls.cursorPos).reverse.dropWhile
      (fun c => !(c == ' ' || c == '\t'))).length
    let wordLen := ls.cursorPos - wordStart
    if res.1.length == 1 then
      let completion := res.1.headD []
      let compLen := completion.length
      let newLength := ls.lineBuffer.length - wordLen + compLen
      if newLength < LINE_BUFFER_SIZE then
        let buf1 := ls.lineBuffer.take wordStart ++ completion ++
          ls.lineBuffer.drop ls.cursorPos
        let cur1 := wordStart + compLen
        if !(completion.getLastD ' ' == '/') then
          if buf1.length < LINE_BUFFER_SIZE - 1 then
            { ls with
                lineBuffer := buf1.take cur1 ++ [' '] ++ buf1.drop cur1,
                cursorPos := cur1 + 1 }
          else { ls with lineBuffer := buf1, cursorPos := cur1 }
        else { ls with lineBuffer := buf1, cursorPos := cur1 }
      else ls
    else
      let commonPre := res.2
      let preLen := commonPre.length
      if wordLen < preLen then
        let newLength := ls.lineBuffer.length - wordLen + preLen
        if newLength < LINE_BUFFER_SIZE then
          { ls with
              lineBuffer := ls.lineBuffer.take wordStart ++ commonPre ++
                ls.lineBuffer.drop ls.cursorPos,
              cursorPos := wordStart + preLen }
        else ls
      else ls
  else ls

/-- One editing key of the `shell_readline` switch: every branch that does
not return. None of them touches the terminal state. -/
def editKey (history : List (List Char))
    (getCompletions : List Char → Nat → List (List Char) × List Char)
    (k : Nat) (ls : LineState) : LineState :=
  if k == KEY_BACKSPACE || k == KEY_CTRL_H then backspace_char ls
  else if k == KEY_DELETE then delete_char ls
  else if k == KEY_ARROW_LEFT || k == KEY_CTRL_B then
    if 0 < ls.cursorPos then { ls with cursorPos := ls.cursorPos - 1 } else ls
  else if k == KEY_ARROW_RIGHT || k == KEY_CTRL_F then
    if ls.cursorPos < ls.lineBuffer.length then
      { ls with cursorPos := ls.cursorPos + 1 }
    else ls
  else if k == KEY_ARROW_UP || k == KEY_CTRL_P then
    if 0 < ls.historyIndex then
      let hi := ls.historyIndex - 1
      set_line_from_history history (history.length - 1 - hi)
        { ls with historyIndex := hi }
    else ls
  else if k == KEY_ARROW_DOWN || k == KEY_CTRL_N then
    if ls.historyIndex < history.length then
      let hi := ls.historyIndex + 1
      if hi == history.length then
        { ls with historyIndex := hi, lineBuffer := [], cursorPos := 0 }
      else
        set_line_from_history history (history.length - 1 - hi)
          { ls with historyIndex := hi }
    else ls
  else if k == KEY_HOME || k == KEY_CTRL_A then { ls with cursorPos := 0 }
  else if k == KEY_END || k == KEY_CTRL_E then
    { ls with cursorPos := ls.lineBuffer.length }
  else if k == KEY_CTRL_K then
    if ls.cursorPos < ls.lineBuffer.length then
      { ls with
        killBuffer := ls.lineBuffer.drop ls.cursorPos,
        lineBuffer := ls.lineBuffer.take ls.cursorPos }
    else ls
  else if k == KEY_CTRL_U then
    if 0 < ls.cursorPos then
      { ls with
        killBuffer := ls.lineBuffer.take ls.cursorPos,
        lineBuffer := ls.lineBuffer.drop ls.cursorPos,
        cursorPos := 0 }
    else ls
  else if k == KEY_CTRL_W then
    if 0 < ls.cursorPos then
      let newPos := ctrlWPos ls.lineBuffer ls.cursorPos
      { ls with
        killBuffer := (ls.lineBuffer.take ls.cursorPos).drop newPos,
        lineBuffer := ls.lineBuffer.take newPos ++ ls.lineBuffer.drop ls.cursorPos,
        cursorPos := newPos }
    else ls
  else if k == KEY_CTRL_Y then
    if 0 < ls.killBuffer.length then
      ls.killBuffer.foldl (fun a c => insert_char c a) ls
    else ls
  else if k == KEY_CTRL_L then ls
  else if k == KEY_CTRL_T then
    if 0 < ls.cursorPos && ls.cursorPos < ls.lineBuffer.length then
      let a := ls.lineBuffer.getD (ls.cursorPos - 1) ' '
      let b := ls.lineBuffer.getD ls.cursorPos ' '
      { ls with
        lineBuffer := (ls.lineBuffer.set (ls.cursorPos - 1) b).set ls.cursorPos a,
        cursorPos := ls.cursorPos + 1 }
    else ls
  else if k == KEY_TAB then tabComplete getCompletions ls
  else if k == KEY_CTRL_R then ls
  else if 32 ≤ k && k < 127 then insert_char (Char.ofNat k) ls
  else ls

/-- One `read_key` outcome: a decoded key, or a read error (`-1`). -/
inductive KeyRead where
  | key (k : Nat)
  | readError
deriving DecidableEq, Repr

/-- The `while (1)` loop of `shell_readline`. `none` means the key stream
ran out with the loop still waiting for input; `some (result, t)` is amenable
to the C return: `result = none` for a `NULL` return (read error, Ctrl-D on
an empty line), `some buffer` for Enter/Ctrl-J, `some []` for Ctrl-C. -/
def readlineLoop (history : List (List Char))
    (getCompletions : List Char → Nat → List (List Char) × List Char) :
    List KeyRead → LineState → TermState → Option (Option (List Char) × TermState)
  | [], _, _ => none
  | kr :: rest, ls, t =>
    match kr with
    | .readError => some (none, disable_raw_mode t)
    | .key k =>
      if k == KEY_ENTER || k == KEY_CTRL_J then
        some (some ls.lineBuffer, disable_raw_mode t)
      else if k == KEY_CTRL_D then
        if ls.lineBuffer.length == 0 then some (none, disable_raw_mode t)
        else readlineLoop history getCompletions rest (delete_char ls) t
      else if k == KEY_CTRL_C then
        some (some [], disable_raw_mode t)
      else readlineLoop history getCompletions rest
        (editKey history getCompletions k ls) t

/-- Drop a trailing newline, as the non-tty path of `shell_readline` does. -/
def stripTrailingNewline (l : List Char) : List Char :=
  if 0 < l.length && l.getLastD ' ' == Char.ofNat 10 then l.take (l.length - 1) else l

/-- `shell_readline`: on a tty, print the prompt, enable raw mode and run
the key loop; otherwise read one line with `fgets` (`nonTtyInput`,
`none` = end of file) without touching the terminal. -/
def shell_readline (history : List (List Char))
    (getCompletions : List Char → Nat → List (List Char) × List Char)
    (isTty getOk setOk : Bool) (nonTtyInput : Option (List Char))
    (keys : List KeyRead) (t : TermState) :
    Option (Option (List Char) × TermState) :=
  let ls : LineState :=
    { lineBuffer := [], cursorPos := 0, historyIndex := history.length,
      killBuffer := [] }
  if !isTty then
    some (nonTtyInput.map stripTrailingNewline, t)
  else
    readlineLoop history getCompletions keys ls (enable_raw_mode isTty getOk setOk t)

theorem readlineLoop_term_eq (history : List (List Char))
    (getCompletions : List Char → Nat → List (List Char) × List Char) :
    ∀ (keys : List KeyRead) (ls : LineState) (t : TermState)
      (res : Option (List Char)) (tEnd : TermState),
      readlineLoop history getCompletions keys ls t = some (res, tEnd) →
      tEnd = disable_raw_mode t := by
  intro keys
  induction keys with
  | nil => intro ls t res tEnd h; cases h
  | cons kr rest ih =>
    intro ls t res tEnd h
    rw [readlineLoop.eq_def] at h
    match kr, h with
    | .readError, h =>
      injection h with h2
      injection h2 with _ h3
      exact h3.symm
    | .key k, h =>
      simp only at h
      split at h
      · injection h with h2
        injection h2 with _ h3
        exact h3.symm
      · split at h
        · split at h
          · injection h with h2
            injection h2 with _ h3
            exact h3.symm
          · exact ih _ _ _ _ h
        · split at h
          · injection h with h2
            injection h2 with _ h3
            exact h3.symm
          · exact ih _ _ _ _ h

theorem enable_raw_mode_inv (isTty getOk setOk : Bool) (t : TermState)
    (hraw : t.rawModeEnabled = false) :
    ((enable_raw_mode isTty getOk setOk t).rawModeEnabled = true →
      (enable_raw_mode isTty getOk setOk t).origTermios = t.settings) ∧
    ((enable_raw_mode isTty getOk setOk t).rawModeEnabled = false →
      (enable_raw_mode isTty getOk setOk t).settings = t.settings) := by
  rw [enable_raw_mode]
  rw [if_neg (by rw [hraw]; exact Bool.false_ne_true)]
  split
  · exact ⟨fun hc => absurd (hraw.symm.trans hc) Bool.false_ne_true, fun _ => rfl⟩
  · split
    · exact ⟨fun hc => absurd (hraw.symm.trans hc) Bool.false_ne_true, fun _ => rfl⟩
    · split
      · exact ⟨fun hc => absurd (hraw.symm.trans hc) Bool.false_ne_true, fun _ => rfl⟩
      · exact ⟨fun _ => rfl, fun hc => by cases hc⟩

/-- C9: every `enable_raw_mode` performed by `shell_readline` is matched by
a `disable_raw_mode` on every return path — read error, Enter/Ctrl-J,
Ctrl-D on an empty line, Ctrl-C — and the non-tty path never enables raw
mode, so whenever `shell_readline` returns, the terminal settings equal
their pre-call state and raw mode is off. -/
theorem C9_raw_mode_restored (history : List (List Char))
    (getCompletions : List Char → Nat → List (List Char) × List Char)
    (isTty getOk setOk : Bool) (nonTtyInput : Option (List Char))
    (keys : List KeyRead) (t : TermState)
    (res : Option (List Char)) (tEnd : TermState)
    (hraw : t.rawModeEnabled = false)
    (h : shell_readline history getCompletions isTty getOk setOk nonTtyInput
      keys t = some (res, tEnd)) :
    tEnd.settings = t.settings ∧ tEnd.rawModeEnabled = false := by
  rw [shell_readline] at h
  split at h
  · injection h with h2
    injection h2 with _ h3
    rw [← h3]
    exact ⟨rfl, hraw⟩
  · have hT := readlineLoop_term_eq history getCompletions keys _ _ res tEnd h
    have hinv := enable_raw_mode_inv isTty getOk setOk t hraw
    rw [hT, disable_raw_mode]
    split
    next hoff =>
      rw [Bool.not_eq_eq_eq_not, Bool.not_true] at hoff
      exact ⟨hinv.2 hoff, hoff⟩
    next hon =>
      rw [Bool.not_eq_eq_eq_not, Bool.not_true, Bool.not_eq_false] at hon
      exact ⟨hinv.1 hon, rfl⟩

theorem C9_raw_mode_restored_witness :
    (TermState.mk (Termios.mk 2 1 0 8 1 0) (Termios.mk 2 1 0 8 1 0) false).settings
        = (Termios.mk 2 1 0 8 1 0) ∧
    (TermState.mk (Termios.mk 2 1 0 8 1 0) (Termios.mk 2 1 0 8 1 0) false).rawModeEnabled
        = false := by
  have h := C9_raw_mode_restored [] (fun _ _ => ([], [])) true true true none
    [KeyRead.key 13]
    (TermState.mk (Termios.mk 2 1 0 8 1 0) (Termios.mk 2 1 0 8 1 0) false)
    (some [])
    (TermState.mk (Termios.mk 2 1 0 8 1 0) (Termios.mk 2 1 0 8 1 0) false)
    (by decide) (by decide)
  exact h


end AIshA